import Mathlib

/-!
Verification development for the Sudoku core of the Not-Sudoku repository
(`src/sudoku/solver.js`, `src/sudoku/generator.js`, `src/sudoku/board.js`).

A grid is modelled as a function `Fin 9 → Fin 9 → Nat` (JS uses 9×9 arrays of
numbers, 0 = empty).  The in-place mutation of the JS solver is modelled by
explicit state passing: `solveBoard` returns the final board together with its
boolean result.  `Math.random`-based shuffling is modelled by an arbitrary
reordering function supplied as a parameter; theorems quantify over it.
-/

/-- A 9×9 grid of naturals; 0 means an empty cell.  Models the JS `board`
arrays. -/
abbrev Grid := Fin 9 → Fin 9 → Nat

/-- Write value `v` at cell `(r, c)`; models `board[r][c] = v`. -/
def setCell (g : Grid) (r c : Fin 9) (v : Nat) : Grid :=
  fun r' c' => if r' = r ∧ c' = c then v else g r' c'

/-- The all-empty grid, `Array.from({length: 9}, () => Array(9).fill(0))`. -/
def emptyGrid : Grid := fun _ _ => 0

/-- All 81 cells in row-major order, matching the JS double loops
`for r ... for c ...`. -/
def allCells : List (Fin 9 × Fin 9) :=
  (List.finRange 9).flatMap fun r => (List.finRange 9).map fun c => (r, c)

/-- `findEmpty` from solver.js: the first cell (row-major) whose value is 0. -/
def findEmpty (g : Grid) : Option (Fin 9 × Fin 9) :=
  allCells.find? fun p => g p.1 p.2 == 0

/-- `isSafe` from solver.js: `val` clashes with no cell in the row, the column
or the 3×3 box of `(row, col)` (the checked cell itself included, exactly as
the JS loops do). -/
def isSafe (g : Grid) (row col : Fin 9) (val : Nat) : Bool :=
  decide ((∀ i : Fin 9, g row i ≠ val) ∧ (∀ i : Fin 9, g i col ≠ val) ∧
    ∀ a b : Fin 9, a.val / 3 = row.val / 3 → b.val / 3 = col.val / 3 → g a b ≠ val)

/-- The candidate digits `[1, ..., 9]` built by the JS loop
`for (let i = 1; i <= 9; i++) candidates.push(i)`. -/
def candidateList : List Nat := [1, 2, 3, 4, 5, 6, 7, 8, 9]

/-- A candidate-order choice function modelling `shuffle` under `randomize`:
given the current board and the ascending candidate list, produce the order
actually tried.  With `randomize = false` this is `idReorder`. -/
abbrev Reorder := Grid → List Nat → List Nat

/-- No shuffling: candidates are tried in ascending order
(`randomize = false`). -/
def idReorder : Reorder := fun _ l => l

/-- The `onSolution` callback.  The JS callback is a stateful closure; it is
modelled as a function from the completed board and the closure state to the
new state and the boolean "stop searching" signal. -/
abbrev SolCb := Grid → Nat → Nat × Bool

/-- The body of `solveBoard` once the board is full (`findEmpty` returned
null): invoke the callback if present, else report success. -/
def solveBase (onSol : Option SolCb) (g : Grid) (s : Nat) : Bool × Grid × Nat :=
  match onSol with
  | some cb =>
    let r := cb g s
    (r.2, g, r.1)
  | none => (true, g, s)

/-- The candidate loop of `solveBoard`: try each candidate in order; place it
when `isSafe`, recurse through `step`, return immediately when the recursion
signals `true`, and reset the cell to 0 at the end of every iteration. -/
def solveLoop (step : Grid → Nat → Bool × Grid × Nat) (r c : Fin 9) :
    List Nat → Grid → Nat → Bool × Grid × Nat
  | [], g, s => (false, g, s)
  | v :: rest, g, s =>
    if isSafe g r c v then
      match step (setCell g r c v) s with
      | (true, g1, s1) => (true, g1, s1)
      | (false, g1, s1) => solveLoop step r c rest (setCell g1 r c 0) s1
    else solveLoop step r c rest (setCell g r c 0) s

/-- `solveBoard` from solver.js, with explicit recursion fuel.  Each recursive
JS call happens on a board with strictly fewer empty cells, so fuel 81 is
always enough; when fuel runs out the model answers `false` (a case the
81-fuelled wrapper never reaches). -/
def solveAux (reorder : Reorder) (onSol : Option SolCb) :
    Nat → Grid → Nat → Bool × Grid × Nat
  | 0, g, s =>
    match findEmpty g with
    | none => solveBase onSol g s
    | some _ => (false, g, s)
  | fuel + 1, g, s =>
    match findEmpty g with
    | none => solveBase onSol g s
    | some (r, c) =>
      solveLoop (solveAux reorder onSol fuel) r c (reorder g candidateList) g s

/-- `solveBoard(board, randomize, null)`: first-solution mode, the candidate
order given by `reorder`. -/
def solveBoard (g : Grid) (reorder : Reorder) : Bool × Grid × Nat :=
  solveAux reorder none 81 g 0

/-- `solveBoard(board)` with both defaults (`randomize = false`,
`onSolution = null`), as called by `validatePuzzle`. -/
def solveBoardDet (g : Grid) : Bool × Grid × Nat :=
  solveAux idReorder none 81 g 0

/-- The counting callback closure inside `countSolutions`:
`count += 1; return count >= 2`. -/
def countCb : SolCb := fun _ s => (s + 1, decide (s + 1 ≥ 2))

/-- `countSolutions` from generator.js: run the solver in enumeration mode
with the counting callback and report the final count. -/
def countSolutions (g : Grid) : Nat :=
  (solveAux idReorder (some countCb) 81 g 0).2.2

/-- Number of empty cells of a grid. -/
def emptyCount (g : Grid) : Nat :=
  (Finset.univ.filter fun p : Fin 9 × Fin 9 => g p.1 p.2 = 0).card

/-! ### Basic grid lemmas -/

theorem setCell_same (g : Grid) (r c : Fin 9) (v : Nat) : setCell g r c v r c = v := by
  simp [setCell]

theorem setCell_other (g : Grid) (r c : Fin 9) (v : Nat) (r' c' : Fin 9)
    (h : ¬(r' = r ∧ c' = c)) : setCell g r c v r' c' = g r' c' := by
  simp [setCell, h]

theorem setCell_self_zero (g : Grid) (r c : Fin 9) (h : g r c = 0) :
    setCell g r c 0 = g := by
  funext r' c'
  by_cases hrc : r' = r ∧ c' = c
  · obtain ⟨h1, h2⟩ := hrc
    subst h1; subst h2
    simp [setCell, h]
  · simp [setCell, hrc]

theorem setCell_cancel (g : Grid) (r c : Fin 9) (v : Nat) (h : g r c = 0) :
    setCell (setCell g r c v) r c 0 = g := by
  funext r' c'
  by_cases hrc : r' = r ∧ c' = c
  · obtain ⟨h1, h2⟩ := hrc
    subst h1; subst h2
    simp [setCell, h]
  · simp [setCell, hrc]

theorem mem_allCells (p : Fin 9 × Fin 9) : p ∈ allCells := by
  have : ∀ q : Fin 9 × Fin 9, q ∈ allCells := by decide
  exact this p

theorem findEmpty_some {g : Grid} {r c : Fin 9}
    (h : findEmpty g = some (r, c)) : g r c = 0 := by
  have := List.find?_some h
  simpa using this

theorem findEmpty_none {g : Grid} (h : findEmpty g = none) (r c : Fin 9) :
    g r c ≠ 0 := by
  have := List.find?_eq_none.mp h (r, c) (mem_allCells (r, c))
  simpa using this

theorem findEmpty_of_full {g : Grid} (h : ∀ r c : Fin 9, g r c ≠ 0) :
    findEmpty g = none := by
  apply List.find?_eq_none.mpr
  intro p _
  simpa using h p.1 p.2

/-- Cells `(r', c')` constrained by a placement at `(r, c)`: same row, same
column or same 3×3 box. -/
abbrev SameUnit (r c r' c' : Fin 9) : Prop :=
  r = r' ∨ c = c' ∨ (r.val / 3 = r'.val / 3 ∧ c.val / 3 = c'.val / 3)

theorem sameUnit_symm {r c r' c' : Fin 9} (h : SameUnit r c r' c') :
    SameUnit r' c' r c := by
  rcases h with h | h | ⟨h1, h2⟩
  · exact Or.inl h.symm
  · exact Or.inr (Or.inl h.symm)
  · exact Or.inr (Or.inr ⟨h1.symm, h2.symm⟩)

theorem isSafe_iff {g : Grid} {r c : Fin 9} {v : Nat} :
    isSafe g r c v = true ↔
      (∀ i : Fin 9, g r i ≠ v) ∧ (∀ i : Fin 9, g i c ≠ v) ∧
      ∀ a b : Fin 9, a.val / 3 = r.val / 3 → b.val / 3 = c.val / 3 → g a b ≠ v := by
  simp [isSafe]

theorem isSafe_pos {g : Grid} {r c : Fin 9} {v : Nat} (h0 : g r c = 0)
    (h : isSafe g r c v = true) : v ≠ 0 := by
  intro hv
  subst hv
  exact (isSafe_iff.mp h).1 c h0

theorem isSafe_unit {g : Grid} {r c : Fin 9} {v : Nat} (h : isSafe g r c v = true)
    {r' c' : Fin 9} (hu : SameUnit r c r' c') : g r' c' ≠ v := by
  obtain ⟨hrow, hcol, hbox⟩ := isSafe_iff.mp h
  rcases hu with h1 | h1 | ⟨h1, h2⟩
  · subst h1; exact hrow c'
  · subst h1; exact hcol r'
  · exact hbox r' c' h1.symm h2.symm

theorem emptyCount_le (g : Grid) : emptyCount g ≤ 81 := by
  have h := Finset.card_filter_le (Finset.univ : Finset (Fin 9 × Fin 9))
    (fun p => g p.1 p.2 = 0)
  simpa [emptyCount] using h

theorem emptyCount_setCell {g : Grid} {r c : Fin 9} {v : Nat}
    (h0 : g r c = 0) (hv : v ≠ 0) :
    emptyCount (setCell g r c v) + 1 = emptyCount g := by
  classical
  unfold emptyCount
  have hmem : (r, c) ∈ Finset.univ.filter fun p : Fin 9 × Fin 9 => g p.1 p.2 = 0 := by
    simp [h0]
  have hset : (Finset.univ.filter fun p : Fin 9 × Fin 9 => setCell g r c v p.1 p.2 = 0)
      = (Finset.univ.filter fun p : Fin 9 × Fin 9 => g p.1 p.2 = 0).erase (r, c) := by
    ext p
    by_cases hp : p.1 = r ∧ p.2 = c
    · have hpe : p = (r, c) := Prod.ext hp.1 hp.2
      subst hpe
      simp [setCell_same, hv]
    · have := setCell_other g r c v p.1 p.2 hp
      have hpe : p ≠ (r, c) := by
        intro he; subst he; exact hp ⟨rfl, rfl⟩
      simp [this, Finset.mem_erase, hpe]
  rw [hset, Finset.card_erase_of_mem hmem]
  have hpos : 0 < (Finset.univ.filter fun p : Fin 9 × Fin 9 => g p.1 p.2 = 0).card :=
    Finset.card_pos.mpr ⟨(r, c), hmem⟩
  omega

theorem emptyCount_pos {g : Grid} {r c : Fin 9} (h0 : g r c = 0) :
    0 < emptyCount g := by
  apply Finset.card_pos.mpr
  exact ⟨(r, c), by simp [h0]⟩

theorem emptyCount_zero_full {g : Grid} (h : emptyCount g = 0) (r c : Fin 9) :
    g r c ≠ 0 := by
  intro h0
  have := emptyCount_pos h0
  omega

/-! ### Solver: backtracking restores the grid on failure -/

theorem solveLoop_false_grid (step : Grid → Nat → Bool × Grid × Nat)
    (hstep : ∀ g s, (step g s).1 = false → (step g s).2.1 = g)
    (r c : Fin 9) :
    ∀ (cs : List Nat) (g : Grid) (s : Nat), g r c = 0 →
      (solveLoop step r c cs g s).1 = false → (solveLoop step r c cs g s).2.1 = g := by
  intro cs
  induction cs with
  | nil => intro g s _ _; simp [solveLoop]
  | cons v rest ih =>
    intro g s h0 hf
    by_cases hs : isSafe g r c v = true
    · rw [solveLoop, if_pos hs] at hf ⊢
      rcases hres : step (setCell g r c v) s with ⟨b1, g1, s1⟩
      rw [hres] at hf
      cases b1 with
      | true => simp at hf
      | false =>
        simp only at hf ⊢
        have hrest : g1 = setCell g r c v := by
          have := hstep (setCell g r c v) s
          rw [hres] at this
          exact this rfl
        rw [hrest] at hf ⊢
        rw [setCell_cancel g r c v h0] at hf ⊢
        exact ih g _ h0 hf
    · rw [solveLoop, if_neg hs] at hf ⊢
      rw [setCell_self_zero g r c h0] at hf ⊢
      exact ih g s h0 hf

theorem solveAux_false_grid (reorder : Reorder) (onSol : Option SolCb) :
    ∀ (fuel : Nat) (g : Grid) (s : Nat),
      (solveAux reorder onSol fuel g s).1 = false →
      (solveAux reorder onSol fuel g s).2.1 = g := by
  intro fuel
  induction fuel with
  | zero =>
    intro g s hf
    rw [solveAux] at hf ⊢
    cases he : findEmpty g with
    | none => cases onSol with
      | none => simp [solveBase]
      | some cb => simp [solveBase]
    | some p => rfl
  | succ fuel ih =>
    intro g s hf
    rw [solveAux] at hf ⊢
    cases he : findEmpty g with
    | none => cases onSol with
      | none => simp [solveBase]
      | some cb => simp [solveBase]
    | some p =>
      obtain ⟨r, c⟩ := p
      rw [he] at hf
      exact solveLoop_false_grid _ (fun g' s' => ih g' s') r c _ g s
        (findEmpty_some he) hf

/-! ### Solver: properties of a successful run -/

/-- `g'` agrees with `g` on every cell that is already set in `g`. -/
abbrev Extends (g g' : Grid) : Prop := ∀ r c : Fin 9, g r c ≠ 0 → g' r c = g r c

/-- No empty cell remains. -/
abbrev FullGrid (g : Grid) : Prop := ∀ r c : Fin 9, g r c ≠ 0

/-- The value of `g'` at `(r, c)` differs from every other cell of its row,
column and box. -/
abbrev OkAt (g' : Grid) (r c : Fin 9) : Prop :=
  ∀ r' c' : Fin 9, SameUnit r c r' c' → ¬(r' = r ∧ c' = c) → g' r' c' ≠ g' r c

/-- Outcome of a successful first-solution solver run started from `g`:
the final grid extends `g`, is full, and every cell filled by the solver is
conflict-free in the final grid. -/
abbrev GoodResult (g g' : Grid) : Prop :=
  Extends g g' ∧ FullGrid g' ∧ ∀ r c : Fin 9, g r c = 0 → OkAt g' r c

/-- `g'` is one of the grids the (deterministic) enumeration search reaches
from `g`: a full extension of `g` whose solver-filled cells hold digits 1–9
and are conflict-free in `g'`. -/
abbrev SearchCompletion (g g' : Grid) : Prop :=
  Extends g g' ∧ FullGrid g' ∧
    ∀ r c : Fin 9, g r c = 0 → 1 ≤ g' r c ∧ g' r c ≤ 9 ∧ OkAt g' r c

theorem solveLoop_true (step : Grid → Nat → Bool × Grid × Nat)
    (Q : Grid → Grid → Prop)
    (hstepT : ∀ g s, (step g s).1 = true → Q g (step g s).2.1)
    (hstepF : ∀ g s, (step g s).1 = false → (step g s).2.1 = g)
    (r c : Fin 9) :
    ∀ (cs : List Nat) (g : Grid) (s : Nat), g r c = 0 →
      (solveLoop step r c cs g s).1 = true →
      ∃ v ∈ cs, isSafe g r c v = true ∧
        Q (setCell g r c v) (solveLoop step r c cs g s).2.1 := by
  intro cs
  induction cs with
  | nil => intro g s _ hf; simp [solveLoop] at hf
  | cons v rest ih =>
    intro g s h0 hf
    by_cases hs : isSafe g r c v = true
    · rw [solveLoop, if_pos hs] at hf ⊢
      rcases hres : step (setCell g r c v) s with ⟨b1, g1, s1⟩
      rw [hres] at hf
      cases b1 with
      | true =>
        refine ⟨v, List.mem_cons_self v rest, hs, ?_⟩
        have := hstepT (setCell g r c v) s
        rw [hres] at this
        exact this rfl
      | false =>
        simp only at hf ⊢
        have hrest : g1 = setCell g r c v := by
          have := hstepF (setCell g r c v) s
          rw [hres] at this
          exact this rfl
        rw [hrest] at hf ⊢
        rw [setCell_cancel g r c v h0] at hf ⊢
        obtain ⟨w, hw, hws, hwq⟩ := ih g s1 h0 hf
        exact ⟨w, List.mem_cons_of_mem v hw, hws, hwq⟩
    · rw [solveLoop, if_neg hs] at hf ⊢
      rw [setCell_self_zero g r c h0] at hf ⊢
      obtain ⟨w, hw, hws, hwq⟩ := ih g s h0 hf
      exact ⟨w, List.mem_cons_of_mem v hw, hws, hwq⟩

/-- Pushing solver-result properties across one placement: if the result is
good for the grid with `v` placed at the empty, safe cell `(r, c)`, it is good
for the original grid. -/
theorem compose_core {g g' : Grid} {r c : Fin 9} {v : Nat}
    (h0 : g r c = 0) (hs : isSafe g r c v = true)
    (hext : Extends (setCell g r c v) g') (_hfull : FullGrid g')
    (hok : ∀ p q : Fin 9, setCell g r c v p q = 0 → OkAt g' p q) :
    Extends g g' ∧ g' r c = v ∧ ∀ p q : Fin 9, g p q = 0 → OkAt g' p q := by
  have hv : v ≠ 0 := isSafe_pos h0 hs
  have hrc : g' r c = v := by
    have := hext r c (by rw [setCell_same]; exact hv)
    rw [setCell_same] at this
    exact this
  have hExt : Extends g g' := by
    intro p q hpq
    have hne : ¬(p = r ∧ q = c) := by
      rintro ⟨rfl, rfl⟩
      exact hpq h0
    have := hext p q (by rw [setCell_other g r c v p q hne]; exact hpq)
    rw [setCell_other g r c v p q hne] at this
    exact this
  refine ⟨hExt, hrc, ?_⟩
  intro p q hpq
  by_cases hpe : p = r ∧ q = c
  · obtain ⟨rfl, rfl⟩ := hpe
    intro r' c' hu hne hval
    rw [hrc] at hval
    by_cases hz : g r' c' = 0
    · have hne' : ¬(setCell g p q v r' c' ≠ 0) := by
        rw [setCell_other g p q v r' c' hne]
        simpa using hz
      have hok' := hok r' c' (by
        rw [setCell_other g p q v r' c' hne]
        exact hz)
      have := hok' p q (sameUnit_symm hu) (by
        rintro ⟨rfl, rfl⟩
        exact hne ⟨rfl, rfl⟩)
      rw [hrc] at this
      exact this hval.symm
    · have := hExt r' c' hz
      rw [this] at hval
      exact isSafe_unit hs hu hval
  · have hz' : setCell g r c v p q = 0 := by
      rw [setCell_other g r c v p q hpe]
      exact hpq
    exact hok p q hz'

theorem solveAux_true_good (reorder : Reorder) :
    ∀ (fuel : Nat) (g : Grid) (s : Nat),
      (solveAux reorder none fuel g s).1 = true →
      GoodResult g (solveAux reorder none fuel g s).2.1 := by
  intro fuel
  induction fuel with
  | zero =>
    intro g s hf
    rw [solveAux] at hf ⊢
    cases he : findEmpty g with
    | none =>
      refine ⟨fun _ _ _ => rfl, findEmpty_none he, fun r c h0 => ?_⟩
      exact absurd h0 (findEmpty_none he r c)
    | some p => rw [he] at hf; exact absurd hf (by simp)
  | succ fuel ih =>
    intro g s hf
    rw [solveAux] at hf ⊢
    cases he : findEmpty g with
    | none =>
      refine ⟨fun _ _ _ => rfl, findEmpty_none he, fun r c h0 => ?_⟩
      exact absurd h0 (findEmpty_none he r c)
    | some p =>
      obtain ⟨r, c⟩ := p
      rw [he] at hf
      have h0 := findEmpty_some he
      obtain ⟨v, _, hs, hq⟩ := solveLoop_true (solveAux reorder none fuel)
        GoodResult (fun g' s' => ih g' s') (solveAux_false_grid reorder none fuel)
        r c (reorder g candidateList) g s h0 hf
      obtain ⟨hext, hfull, hok⟩ := hq
      obtain ⟨hExt, _, hOk⟩ := compose_core h0 hs hext hfull hok
      exact ⟨hExt, hfull, hOk⟩

theorem solveAux_true_mem (reorder : Reorder)
    (hr : ∀ (g : Grid) (v : Nat), v ∈ reorder g candidateList → 1 ≤ v ∧ v ≤ 9) :
    ∀ (fuel : Nat) (g : Grid) (s : Nat),
      (solveAux reorder none fuel g s).1 = true →
      SearchCompletion g (solveAux reorder none fuel g s).2.1 := by
  intro fuel
  induction fuel with
  | zero =>
    intro g s hf
    rw [solveAux] at hf ⊢
    cases he : findEmpty g with
    | none =>
      refine ⟨fun _ _ _ => rfl, findEmpty_none he, fun r c h0 => ?_⟩
      exact absurd h0 (findEmpty_none he r c)
    | some p => rw [he] at hf; exact absurd hf (by simp)
  | succ fuel ih =>
    intro g s hf
    rw [solveAux] at hf ⊢
    cases he : findEmpty g with
    | none =>
      refine ⟨fun _ _ _ => rfl, findEmpty_none he, fun r c h0 => ?_⟩
      exact absurd h0 (findEmpty_none he r c)
    | some p =>
      obtain ⟨r, c⟩ := p
      rw [he] at hf
      have h0 := findEmpty_some he
      obtain ⟨v, hv, hs, hq⟩ := solveLoop_true (solveAux reorder none fuel)
        SearchCompletion (fun g' s' => ih g' s') (solveAux_false_grid reorder none fuel)
        r c (reorder g candidateList) g s h0 hf
      obtain ⟨hext, hfull, hok⟩ := hq
      have hokOnly : ∀ p q : Fin 9, setCell g r c v p q = 0 → OkAt _ p q :=
        fun p q hz => (hok p q hz).2.2
      obtain ⟨hExt, hrc, hOk⟩ := compose_core h0 hs hext hfull hokOnly
      refine ⟨hExt, hfull, fun p q hpq => ?_⟩
      by_cases hpe : p = r ∧ q = c
      · obtain ⟨rfl, rfl⟩ := hpe
        rw [hrc]
        exact ⟨(hr g v hv).1, (hr g v hv).2, hOk p q hpq⟩
      · have hz : setCell g r c v p q = 0 := by
          rw [setCell_other g r c v p q hpe]; exact hpq
        exact ⟨(hok p q hz).1, (hok p q hz).2.1, hOk p q hpq⟩

theorem idReorder_range (g : Grid) (v : Nat) (hv : v ∈ idReorder g candidateList) :
    1 ≤ v ∧ v ≤ 9 := by
  simp [idReorder, candidateList] at hv
  omega

/-- A candidate-order oracle that always proposes the value the target
solution `sol` holds at the first empty cell; one possible outcome of the JS
`shuffle` at every node of a successful randomized run. -/
def guidedBy (sol : Grid) : Reorder := fun g l =>
  match findEmpty g with
  | some p => sol p.1 p.2 :: l.erase (sol p.1 p.2)
  | none => l

theorem searchCompletion_step {g sol : Grid} {r c : Fin 9}
    (hsc : SearchCompletion g sol) (h0 : g r c = 0) :
    SearchCompletion (setCell g r c (sol r c)) sol := by
  obtain ⟨hext, hfull, hrest⟩ := hsc
  refine ⟨?_, hfull, ?_⟩
  · intro p q hpq
    by_cases hpe : p = r ∧ q = c
    · obtain ⟨rfl, rfl⟩ := hpe
      rw [setCell_same]
    · rw [setCell_other g r c _ p q hpe] at hpq ⊢
      exact hext p q hpq
  · intro p q hpq
    have hpe : ¬(p = r ∧ q = c) := by
      rintro ⟨rfl, rfl⟩
      rw [setCell_same] at hpq
      have := (hrest p q h0).1
      omega
    rw [setCell_other g r c _ p q hpe] at hpq
    exact hrest p q hpq

theorem searchCompletion_safe {g sol : Grid} {r c : Fin 9}
    (hsc : SearchCompletion g sol) (h0 : g r c = 0) :
    isSafe g r c (sol r c) = true := by
  obtain ⟨hext, _, hrest⟩ := hsc
  obtain ⟨h1, h9, hok⟩ := hrest r c h0
  have key : ∀ r' c' : Fin 9, SameUnit r c r' c' → ¬(r' = r ∧ c' = c) →
      g r' c' ≠ sol r c := by
    intro r' c' hu hne
    by_cases hz : g r' c' = 0
    · rw [hz]; omega
    · rw [← hext r' c' hz]
      intro hcontra
      exact hok r' c' hu hne hcontra
  apply isSafe_iff.mpr
  refine ⟨fun i => ?_, fun i => ?_, fun a b ha hb => ?_⟩
  · by_cases hic : i = c
    · subst hic; rw [h0]; omega
    · exact key r i (Or.inl rfl) (fun h => hic h.2)
  · by_cases hir : i = r
    · subst hir; rw [h0]; omega
    · exact key i c (Or.inr (Or.inl rfl)) (fun h => hir h.1)
  · by_cases hab : a = r ∧ b = c
    · obtain ⟨rfl, rfl⟩ := hab; rw [h0]; omega
    · exact key a b (Or.inr (Or.inr ⟨ha.symm, hb.symm⟩)) hab

/-- Fed the oracle `guidedBy sol` for a completion `sol` of `g`, the solver
never backtracks: it returns `sol` itself (and leaves the callback state
untouched, there being no callback). -/
theorem solveAux_guided {sol : Grid} :
    ∀ (fuel : Nat) (g : Grid) (s : Nat), SearchCompletion g sol →
      emptyCount g ≤ fuel →
      solveAux (guidedBy sol) none fuel g s = (true, sol, s) := by
  intro fuel
  induction fuel with
  | zero =>
    intro g s hsc hfuel
    rw [solveAux]
    cases he : findEmpty g with
    | none =>
      have : sol = g := by
        funext p q
        exact hsc.1 p q (findEmpty_none he p q)
      rw [this]
      rfl
    | some p =>
      obtain ⟨r, c⟩ := p
      have := emptyCount_pos (findEmpty_some he)
      omega
  | succ fuel ih =>
    intro g s hsc hfuel
    rw [solveAux]
    cases he : findEmpty g with
    | none =>
      have : sol = g := by
        funext p q
        exact hsc.1 p q (findEmpty_none he p q)
      rw [this]
      rfl
    | some p =>
      obtain ⟨r, c⟩ := p
      have h0 := findEmpty_some he
      have hguide : guidedBy sol g candidateList
          = sol r c :: candidateList.erase (sol r c) := by
        rw [guidedBy, he]
      rw [hguide]
      have hsafe := searchCompletion_safe hsc h0
      have hnext : solveAux (guidedBy sol) none fuel (setCell g r c (sol r c)) s
          = (true, sol, s) := by
        apply ih _ s (searchCompletion_step hsc h0)
        have hv : sol r c ≠ 0 := by
          have := (hsc.2.2 r c h0).1
          omega
        have := emptyCount_setCell h0 hv
        omega
      show solveLoop (solveAux (guidedBy sol) none fuel) r c
          (sol r c :: candidateList.erase (sol r c)) g s = (true, sol, s)
      rw [solveLoop.eq_def]
      simp only [hsafe, if_true, hnext]

/-! ### The set of grids reached by the enumeration search -/

/-- All search completions of `g` as a set. -/
def SearchCompletions (g : Grid) : Set Grid := {g' | SearchCompletion g g'}

theorem mem_candidateList {v : Nat} : v ∈ candidateList ↔ 1 ≤ v ∧ v ≤ 9 := by
  simp [candidateList]
  omega

theorem SC_full {g : Grid} (he : findEmpty g = none) :
    SearchCompletions g = {g} := by
  ext g'
  constructor
  · intro hsc
    have : g' = g := by
      funext p q
      exact hsc.1 p q (findEmpty_none he p q)
    simp [this]
  · intro hg'
    rw [Set.mem_singleton_iff] at hg'
    subst hg'
    refine ⟨fun _ _ _ => rfl, findEmpty_none he, fun r c h0 => ?_⟩
    exact absurd h0 (findEmpty_none he r c)

/-- The completions reachable by trying, in turn, each candidate of `cs` at
cell `(r, c)`. -/
def branchSet (g : Grid) (r c : Fin 9) (cs : List Nat) : Set Grid :=
  {g' | ∃ v ∈ cs, isSafe g r c v = true ∧ SearchCompletion (setCell g r c v) g'}

theorem branchSet_nil (g : Grid) (r c : Fin 9) : branchSet g r c [] = ∅ := by
  ext g'
  simp [branchSet]

theorem branchSet_cons (g : Grid) (r c : Fin 9) (v : Nat) (rest : List Nat) :
    branchSet g r c (v :: rest) =
      (if isSafe g r c v = true then SearchCompletions (setCell g r c v) else ∅)
        ∪ branchSet g r c rest := by
  ext g'
  by_cases hs : isSafe g r c v = true
  · simp only [branchSet, Set.mem_setOf_eq, if_pos hs, Set.mem_union]
    constructor
    · rintro ⟨w, hw, hws, hwc⟩
      rcases List.mem_cons.mp hw with rfl | hw'
      · exact Or.inl hwc
      · exact Or.inr ⟨w, hw', hws, hwc⟩
    · rintro (hm | ⟨w, hw, hws, hwc⟩)
      · exact ⟨v, List.mem_cons_self v rest, hs, hm⟩
      · exact ⟨w, List.mem_cons_of_mem v hw, hws, hwc⟩
  · simp only [branchSet, Set.mem_setOf_eq, if_neg hs, Set.mem_union]
    constructor
    · rintro ⟨w, hw, hws, hwc⟩
      rcases List.mem_cons.mp hw with rfl | hw'
      · exact absurd hws hs
      · exact Or.inr ⟨w, hw', hws, hwc⟩
    · rintro (hm | ⟨w, hw, hws, hwc⟩)
      · exact absurd hm (Set.not_mem_empty g')
      · exact ⟨w, List.mem_cons_of_mem v hw, hws, hwc⟩

/-- A completion of the grid with `v` placed at `(r, c)` holds `v` there. -/
theorem SC_val {g g' : Grid} {r c : Fin 9} {v : Nat} (hv : v ≠ 0)
    (hsc : SearchCompletion (setCell g r c v) g') : g' r c = v := by
  have := hsc.1 r c (by rw [setCell_same]; exact hv)
  rw [setCell_same] at this
  exact this

/-- Un-step for search completions: a completion of `g` with a safe candidate
placed is a completion of `g`. -/
theorem searchCompletion_unstep {g g' : Grid} {r c : Fin 9} {v : Nat}
    (h0 : g r c = 0) (hs : isSafe g r c v = true) (h1 : 1 ≤ v) (h9 : v ≤ 9)
    (hsc : SearchCompletion (setCell g r c v) g') : SearchCompletion g g' := by
  obtain ⟨hext, hfull, hrest⟩ := hsc
  have hokOnly : ∀ p q : Fin 9, setCell g r c v p q = 0 → OkAt g' p q :=
    fun p q hz => (hrest p q hz).2.2
  obtain ⟨hExt, hrc, hOk⟩ := compose_core h0 hs hext hfull hokOnly
  refine ⟨hExt, hfull, fun p q hpq => ?_⟩
  by_cases hpe : p = r ∧ q = c
  · obtain ⟨rfl, rfl⟩ := hpe
    rw [hrc]
    exact ⟨h1, h9, hOk p q hpq⟩
  · have hz : setCell g r c v p q = 0 := by
      rw [setCell_other g r c v p q hpe]; exact hpq
    exact ⟨(hrest p q hz).1, (hrest p q hz).2.1, hOk p q hpq⟩

/-- Partitioning the search completions of a grid with first empty cell
`(r, c)` by the digit placed there. -/
theorem SC_decomp {g : Grid} {r c : Fin 9} (he : findEmpty g = some (r, c)) :
    SearchCompletions g = branchSet g r c candidateList := by
  have h0 := findEmpty_some he
  ext g'
  constructor
  · intro hsc
    have hb := (hsc.2.2 r c h0)
    refine ⟨g' r c, mem_candidateList.mpr ⟨hb.1, hb.2.1⟩,
      searchCompletion_safe hsc h0, searchCompletion_step hsc h0⟩
  · rintro ⟨v, hv, hvs, hvc⟩
    obtain ⟨h1, h9⟩ := mem_candidateList.mp hv
    exact searchCompletion_unstep h0 hvs h1 h9 hvc

theorem SC_finite (g : Grid) : (SearchCompletions g).Finite := by
  generalize hn : emptyCount g = n
  induction n using Nat.strong_induction_on generalizing g with
  | _ n ih =>
    cases he : findEmpty g with
    | none =>
      rw [SC_full he]
      exact Set.finite_singleton g
    | some p =>
      obtain ⟨r, c⟩ := p
      have h0 := findEmpty_some he
      rw [SC_decomp he]
      have : ∀ cs : List Nat, (branchSet g r c cs).Finite := by
        intro cs
        induction cs with
        | nil => rw [branchSet_nil]; exact Set.finite_empty
        | cons v rest ihc =>
          rw [branchSet_cons]
          apply Set.Finite.union
          · by_cases hs : isSafe g r c v = true
            · rw [if_pos hs]
              have hv : v ≠ 0 := isSafe_pos h0 hs
              have hlt : emptyCount (setCell g r c v) < n := by
                have := emptyCount_setCell h0 hv
                omega
              exact ih _ hlt _ rfl
            · rw [if_neg hs]; exact Set.finite_empty
          · exact ihc
      exact this candidateList

theorem branchSet_finite (g : Grid) (r c : Fin 9) (_h0 : g r c = 0)
    (cs : List Nat) : (branchSet g r c cs).Finite := by
  induction cs with
  | nil => rw [branchSet_nil]; exact Set.finite_empty
  | cons v rest ihc =>
    rw [branchSet_cons]
    apply Set.Finite.union
    · by_cases hs : isSafe g r c v = true
      · rw [if_pos hs]; exact SC_finite _
      · rw [if_neg hs]; exact Set.finite_empty
    · exact ihc

theorem branchSet_cons_ncard {g : Grid} {r c : Fin 9} {v : Nat} {rest : List Nat}
    (h0 : g r c = 0) (hnotin : v ∉ rest) :
    (branchSet g r c (v :: rest)).ncard =
      (if isSafe g r c v = true then (SearchCompletions (setCell g r c v)).ncard else 0)
        + (branchSet g r c rest).ncard := by
  rw [branchSet_cons]
  by_cases hs : isSafe g r c v = true
  · rw [if_pos hs, if_pos hs]
    have hv : v ≠ 0 := isSafe_pos h0 hs
    apply Set.ncard_union_eq
    · rw [Set.disjoint_left]
      intro g' hg' hg''
      obtain ⟨w, hw, hws, hwc⟩ := hg''
      have hwv : g' r c = w := SC_val (isSafe_pos h0 hws) hwc
      have hvv : g' r c = v := SC_val hv hg'
      rw [hvv] at hwv
      exact hnotin (hwv ▸ hw)
    · exact SC_finite _
    · exact branchSet_finite g r c h0 rest
  · rw [if_neg hs, if_neg hs]
    simp

/-! ### Exactness of `countSolutions` -/

/-- The enumeration run of the solver with the counting callback, as invoked
by `countSolutions` (no randomization). -/
def countRun (fuel : Nat) : Grid → Nat → Bool × Grid × Nat :=
  solveAux idReorder (some countCb) fuel

theorem solveLoop_count (fuel : Nat)
    (hstep : ∀ g s, emptyCount g ≤ fuel → s < 2 →
      (countRun fuel g s).2.2 = min 2 (s + (SearchCompletions g).ncard) ∧
      ((countRun fuel g s).1 = true ↔ (countRun fuel g s).2.2 = 2))
    (r c : Fin 9) :
    ∀ (cs : List Nat) (g : Grid) (s : Nat), g r c = 0 → emptyCount g ≤ fuel + 1 →
      cs.Nodup → s < 2 →
      (solveLoop (countRun fuel) r c cs g s).2.2
          = min 2 (s + (branchSet g r c cs).ncard) ∧
      ((solveLoop (countRun fuel) r c cs g s).1 = true ↔
        (solveLoop (countRun fuel) r c cs g s).2.2 = 2) := by
  intro cs
  induction cs with
  | nil =>
    intro g s h0 hfuel hnodup hs2
    rw [branchSet_nil]
    simp [solveLoop]
    omega
  | cons v rest ih =>
    intro g s h0 hfuel hnodup hs2
    obtain ⟨hvnotin, hnodup'⟩ := List.nodup_cons.mp hnodup
    by_cases hs : isSafe g r c v = true
    · have hv : v ≠ 0 := isSafe_pos h0 hs
      have hec : emptyCount (setCell g r c v) ≤ fuel := by
        have := emptyCount_setCell h0 hv
        omega
      have hres := hstep (setCell g r c v) s hec hs2
      have hcard := branchSet_cons_ncard h0 hvnotin
      rw [if_pos hs] at hcard
      rw [solveLoop, if_pos hs]
      rcases hr : countRun fuel (setCell g r c v) s with ⟨b1, g1, s1⟩
      rw [hr] at hres
      simp only at hres
      cases b1 with
      | true =>
        simp only
        have h2 : s1 = 2 := hres.2.mp rfl
        constructor
        · rw [h2, hcard]
          have : 2 ≤ s + (SearchCompletions (setCell g r c v)).ncard := by omega
          omega
        · simp [h2]
      | false =>
        simp only
        have hne2 : s1 ≠ 2 := by
          intro hcontra
          exact absurd (hres.2.mpr hcontra) (by simp)
        have hs1lt : s1 < 2 := by
          have := hres.1
          omega
        have hg1 : g1 = setCell g r c v := by
          have := solveAux_false_grid idReorder (some countCb) fuel (setCell g r c v) s
          rw [show solveAux idReorder (some countCb) fuel (setCell g r c v) s
              = countRun fuel (setCell g r c v) s from rfl, hr] at this
          exact this rfl
        rw [hg1, setCell_cancel g r c v h0]
        have hih := ih g s1 h0 hfuel hnodup' hs1lt
        refine ⟨?_, hih.2⟩
        rw [hih.1, hcard]
        have hs1 : s1 = min 2 (s + (SearchCompletions (setCell g r c v)).ncard) := hres.1
        omega
    · rw [solveLoop, if_neg hs]
      rw [setCell_self_zero g r c h0]
      have hcard : (branchSet g r c (v :: rest)).ncard = (branchSet g r c rest).ncard := by
        rw [branchSet_cons, if_neg hs, Set.empty_union]
      rw [hcard]
      exact ih g s h0 hfuel hnodup' hs2

theorem solveAux_count :
    ∀ (fuel : Nat) (g : Grid) (s : Nat), emptyCount g ≤ fuel → s < 2 →
      (countRun fuel g s).2.2 = min 2 (s + (SearchCompletions g).ncard) ∧
      ((countRun fuel g s).1 = true ↔ (countRun fuel g s).2.2 = 2) := by
  intro fuel
  induction fuel with
  | zero =>
    intro g s hfuel hs2
    have hfull : ∀ r c : Fin 9, g r c ≠ 0 := by
      intro r c
      exact emptyCount_zero_full (by omega) r c
    have he : findEmpty g = none := findEmpty_of_full hfull
    rw [countRun, solveAux, he]
    rw [SC_full he, Set.ncard_singleton]
    refine ⟨by simp [solveBase, countCb]; omega, ?_⟩
    simp [solveBase, countCb]
    omega
  | succ fuel ih =>
    intro g s hfuel hs2
    cases he : findEmpty g with
    | none =>
      rw [countRun, solveAux, he]
      rw [SC_full he, Set.ncard_singleton]
      refine ⟨by simp [solveBase, countCb]; omega, ?_⟩
      simp [solveBase, countCb]
      omega
    | some p =>
      obtain ⟨r, c⟩ := p
      have h0 := findEmpty_some he
      rw [countRun, solveAux, he]
      have hloop := solveLoop_count fuel ih r c candidateList g s h0 hfuel
        (by decide) hs2
      rw [SC_decomp he]
      exact hloop

/-- `countSolutions` returns the number of search completions, capped at 2. -/
theorem countSolutions_eq (g : Grid) :
    countSolutions g = min 2 (SearchCompletions g).ncard := by
  have h := (solveAux_count 81 g 0 (emptyCount_le g) (by omega)).1
  rw [countRun] at h
  rw [countSolutions, h]
  omega

/-! ### Generator definitions (generator.js) -/

def MAX_GENERATION_ATTEMPTS : Nat := 8

/-- The property names the JS lookup `removalMap[difficulty]` finds on
`Object.prototype` (the host's, as in Node/Chromium) when `difficulty` is
none of the map's own keys.  For these the lookup yields the inherited
member — a function, or `Object.prototype` itself for `__proto__` — which is
not nullish, so `??` does not fall back to the medium count. -/
def protoKeys : List String :=
  ["constructor", "hasOwnProperty", "isPrototypeOf", "propertyIsEnumerable",
   "toLocaleString", "toString", "valueOf", "__proto__",
   "__defineGetter__", "__defineSetter__", "__lookupGetter__", "__lookupSetter__"]

/-- `removalMap[difficulty] ?? removalMap.medium` from `carvePuzzle`:
`some n` when the lookup (or the `??` fallback) yields a number, `none` when
an inherited `Object.prototype` member is found — a non-nullish
function/object value, for which every later `removed >= toRemove`
comparison in the carve loop is false (`NaN` comparison). -/
def removalCount (difficulty : String) : Option Nat :=
  if difficulty = "easy" then some 45
  else if difficulty = "medium" then some 55
  else if difficulty = "hard" then some 62
  else if difficulty = "expert" then some 70
  else if difficulty ∈ protoKeys then none
  else some 55

/-- The carve loop's stop test `removed >= toRemove`: the plain comparison
for a numeric target, constantly false when `toRemove` is an inherited
non-number (`NaN` comparison semantics). -/
def removedGE (removed : Nat) : Option Nat → Bool
  | some t => decide (removed ≥ t)
  | none => false

/-- Row index of linear position `pos`: `Math.floor(pos / 9)`. -/
def posRow (pos : Fin 81) : Fin 9 := ⟨pos.val / 9, by have := pos.isLt; omega⟩

/-- Column index of linear position `pos`: `pos % 9`. -/
def posCol (pos : Fin 81) : Fin 9 := ⟨pos.val % 9, by have := pos.isLt; omega⟩

/-- The carving loop of `carvePuzzle`: walk the (shuffled) position list;
stop when the removal target is met; tentatively zero each cell, keep the
removal when the puzzle still has exactly one counted solution, otherwise
write the backup value back. -/
def carveGo (toRemove : Option Nat) : List (Fin 81) → Nat → Grid → Grid
  | [], _, puzzle => puzzle
  | pos :: rest, removed, puzzle =>
    if removedGE removed toRemove then puzzle
    else if countSolutions (setCell puzzle (posRow pos) (posCol pos) 0) ≠ 1 then
      carveGo toRemove rest removed
        (setCell (setCell puzzle (posRow pos) (posCol pos) 0) (posRow pos) (posCol pos)
          (puzzle (posRow pos) (posCol pos)))
    else
      carveGo toRemove rest (removed + 1) (setCell puzzle (posRow pos) (posCol pos) 0)

/-- `carvePuzzle(solved, difficulty)`; the `Math.random` shuffle of the 81
linear positions is modelled by the caller-supplied list `positions`. -/
def carvePuzzle (solved : Grid) (difficulty : String)
    (positions : List (Fin 81)) : Grid :=
  carveGo (removalCount difficulty) positions 0 solved

/-- `boardsEqual` from generator.js (entrywise comparison). -/
def boardsEqual (a b : Grid) : Bool := decide (∀ r c : Fin 9, a r c = b r c)

/-- `hasAllDigits` from `isCompleteAndValid`: 9 values, no duplicates
(`new Set(values).size === 9`), containing each of 1–9. -/
def hasAllDigits (values : List Nat) : Bool :=
  values.length == 9 && values.dedup.length == 9 &&
    (List.range' 1 9).all fun n => values.contains n

/-- Row `r` of the board, `board[r]`. -/
def rowList (g : Grid) (r : Fin 9) : List Nat :=
  (List.finRange 9).map fun c => g r c

/-- Column `c` of the board. -/
def colList (g : Grid) (c : Fin 9) : List Nat :=
  (List.finRange 9).map fun r => g r c

/-- The cells of box `(br, bc)` in the order the JS double loop visits them. -/
def boxCells (br bc : Fin 3) : List (Fin 9 × Fin 9) :=
  (List.finRange 3).flatMap fun i => (List.finRange 3).map fun j =>
    (⟨br.val * 3 + i.val, by have := br.isLt; have := i.isLt; omega⟩,
     ⟨bc.val * 3 + j.val, by have := bc.isLt; have := j.isLt; omega⟩)

/-- The values of box `(br, bc)`. -/
def boxList (g : Grid) (br bc : Fin 3) : List Nat :=
  (boxCells br bc).map fun p => g p.1 p.2

/-- `isCompleteAndValid` from generator.js: every row, column and box passes
`hasAllDigits`. -/
def isCompleteAndValid (g : Grid) : Bool :=
  ((List.finRange 9).all fun r => hasAllDigits (rowList g r)) &&
  ((List.finRange 9).all fun c => hasAllDigits (colList g c)) &&
  ((List.finRange 3).all fun br => (List.finRange 3).all fun bc =>
    hasAllDigits (boxList g br bc))

/-- `validatePuzzle(puzzle, expectedSolution)`: `none` models
`{valid: false}`, `some s` models `{valid: true, solution: s}`. -/
def validatePuzzle (puzzle expectedSolution : Grid) : Option Grid :=
  let res := solveBoardDet puzzle
  if !res.1 then none
  else if !isCompleteAndValid res.2.1 then none
  else if countSolutions puzzle ≠ 1 then none
  else some (if boardsEqual res.2.1 expectedSolution then expectedSolution else res.2.1)

/-- `generateSolvedBoard`: solve the empty grid with randomized candidate
order (modelled by `reorder`); `none` models the `null` return. -/
def generateSolvedBoard (reorder : Reorder) : Option Grid :=
  let res := solveAux reorder none 81 emptyGrid 0
  if res.1 then some res.2.1 else none

/-- The randomness consumed by one generation attempt: the candidate
reordering used while solving and the shuffled position list used while
carving. -/
structure AttemptRand where
  reorder : Reorder
  positions : List (Fin 81)

/-- The body of one iteration of the `generatePuzzle` loop: build a solved
board (skip the attempt on failure), carve it, validate, and report the
`{puzzle, solution}` pair when validation passes. -/
def attemptResult (difficulty : String) (rand : Nat → AttemptRand) (i : Nat) :
    Option (Grid × Grid) :=
  match generateSolvedBoard (rand i).reorder with
  | none => none
  | some solved =>
    match validatePuzzle (carvePuzzle solved difficulty (rand i).positions) solved with
    | some sol => some (carvePuzzle solved difficulty (rand i).positions, sol)
    | none => none

/-- The attempt loop of `generatePuzzle`: `remaining` attempts left, `i` the
current attempt index; `none` models the final `throw`. -/
def generateGo (difficulty : String) (rand : Nat → AttemptRand) :
    Nat → Nat → Option (Grid × Grid)
  | 0, _ => none
  | remaining + 1, i =>
    match attemptResult difficulty rand i with
    | some x => some x
    | none => generateGo difficulty rand remaining (i + 1)

/-- `generatePuzzle(difficulty)` from generator.js, randomness supplied by
`rand`; `none` models the `throw` after all attempts fail. -/
def generatePuzzle (difficulty : String) (rand : Nat → AttemptRand) :
    Option (Grid × Grid) :=
  generateGo difficulty rand MAX_GENERATION_ATTEMPTS 0

/-! ### Spec-level validity notions and the `isCompleteAndValid` bridge -/

/-- `g'` is a (mathematical) solution of the puzzle `p`: it extends the
givens, holds only digits 1–9, and no two distinct cells of a row, column or
box agree. -/
abbrev ValidCompletion (p g' : Grid) : Prop :=
  Extends p g' ∧ (∀ r c : Fin 9, 1 ≤ g' r c ∧ g' r c ≤ 9) ∧
    ∀ r c r' c' : Fin 9, SameUnit r c r' c' → ¬(r' = r ∧ c' = c) → g' r' c' ≠ g' r c

/-- The set cells of `g` hold digits 1–9 and are mutually conflict-free. -/
abbrev NoGivenConflict (g : Grid) : Prop :=
  (∀ r c : Fin 9, g r c ≠ 0 → 1 ≤ g r c ∧ g r c ≤ 9) ∧
    ∀ r c r' c' : Fin 9, g r c ≠ 0 → g r' c' ≠ 0 → SameUnit r c r' c' →
      ¬(r' = r ∧ c' = c) → g r' c' ≠ g r c

/-- Row `r` is a permutation of 1–9: each digit appears in exactly one
column. -/
abbrev RowPerm (g : Grid) (r : Fin 9) : Prop :=
  ∀ n : Nat, 1 ≤ n → n ≤ 9 → ∃! c : Fin 9, g r c = n

/-- Column `c` is a permutation of 1–9. -/
abbrev ColPerm (g : Grid) (c : Fin 9) : Prop :=
  ∀ n : Nat, 1 ≤ n → n ≤ 9 → ∃! r : Fin 9, g r c = n

/-- Box `(br, bc)` is a permutation of 1–9. -/
abbrev BoxPerm (g : Grid) (br bc : Fin 3) : Prop :=
  ∀ n : Nat, 1 ≤ n → n ≤ 9 →
    ∃! p : Fin 9 × Fin 9, (p.1.val / 3 = br.val ∧ p.2.val / 3 = bc.val) ∧ g p.1 p.2 = n

theorem hasAllDigits_iff {values : List Nat} :
    hasAllDigits values = true ↔
      values.length = 9 ∧ values.dedup.length = 9 ∧
        ∀ n : Nat, 1 ≤ n → n ≤ 9 → n ∈ values := by
  simp only [hasAllDigits, Bool.and_eq_true, beq_iff_eq, List.all_eq_true]
  constructor
  · rintro ⟨⟨h1, h2⟩, h3⟩
    refine ⟨h1, h2, fun n hn1 hn9 => ?_⟩
    have := h3 n (by rw [List.mem_range']; exact ⟨n - 1, by omega, by omega⟩)
    simpa using this
  · rintro ⟨h1, h2, h3⟩
    refine ⟨⟨h1, h2⟩, fun n hn => ?_⟩
    rw [List.mem_range'] at hn
    obtain ⟨i, hi, rfl⟩ := hn
    simpa using h3 (1 + 1 * i) (by omega) (by omega)

theorem hasAllDigits_nodup {values : List Nat} (h : hasAllDigits values = true) :
    values.Nodup := by
  obtain ⟨h1, h2, _⟩ := hasAllDigits_iff.mp h
  have hsub := List.dedup_sublist values
  have := hsub.eq_of_length (by omega)
  rw [← this]
  exact values.nodup_dedup

theorem hasAllDigits_bounds {values : List Nat} (h : hasAllDigits values = true) :
    ∀ x ∈ values, 1 ≤ x ∧ x ≤ 9 := by
  obtain ⟨h1, h2, h3⟩ := hasAllDigits_iff.mp h
  have hsubset : Finset.Icc 1 9 ⊆ values.toFinset := by
    intro n hn
    rw [Finset.mem_Icc] at hn
    rw [List.mem_toFinset]
    exact h3 n hn.1 hn.2
  have hcardle : values.toFinset.card ≤ (Finset.Icc 1 9).card := by
    rw [List.card_toFinset, h2, Nat.card_Icc]
  have heq := Finset.eq_of_subset_of_card_le hsubset hcardle
  intro x hx
  have : x ∈ values.toFinset := List.mem_toFinset.mpr hx
  rw [← heq, Finset.mem_Icc] at this
  exact this

theorem boxCells_mem : ∀ (p : Fin 9 × Fin 9) (br bc : Fin 3),
    p.1.val / 3 = br.val → p.2.val / 3 = bc.val → p ∈ boxCells br bc := by
  decide

theorem boxCells_nodup : ∀ br bc : Fin 3, (boxCells br bc).Nodup := by
  decide

theorem icav_iff {g : Grid} :
    isCompleteAndValid g = true ↔
      (∀ r : Fin 9, hasAllDigits (rowList g r) = true) ∧
      (∀ c : Fin 9, hasAllDigits (colList g c) = true) ∧
      ∀ br bc : Fin 3, hasAllDigits (boxList g br bc) = true := by
  simp [isCompleteAndValid, List.all_eq_true, and_assoc]

theorem icav_bounds {g : Grid} (h : isCompleteAndValid g = true) (r c : Fin 9) :
    1 ≤ g r c ∧ g r c ≤ 9 := by
  have hrow := (icav_iff.mp h).1 r
  exact hasAllDigits_bounds hrow (g r c) (by simp [rowList])

theorem icav_full {g : Grid} (h : isCompleteAndValid g = true) : FullGrid g := by
  intro r c
  have := icav_bounds h r c
  omega

theorem row_inj {g : Grid} {r : Fin 9} (h : hasAllDigits (rowList g r) = true)
    {c c' : Fin 9} (he : g r c = g r c') : c = c' := by
  have hnd := hasAllDigits_nodup h
  rw [rowList] at hnd
  exact (List.nodup_map_iff_inj_on (List.nodup_finRange 9)).mp hnd c
    (List.mem_finRange c) c' (List.mem_finRange c') he

theorem col_inj {g : Grid} {c : Fin 9} (h : hasAllDigits (colList g c) = true)
    {r r' : Fin 9} (he : g r c = g r' c) : r = r' := by
  have hnd := hasAllDigits_nodup h
  rw [colList] at hnd
  exact (List.nodup_map_iff_inj_on (List.nodup_finRange 9)).mp hnd r
    (List.mem_finRange r) r' (List.mem_finRange r') he

theorem box_inj {g : Grid} {br bc : Fin 3} (h : hasAllDigits (boxList g br bc) = true)
    {p q : Fin 9 × Fin 9} (hp : p ∈ boxCells br bc) (hq : q ∈ boxCells br bc)
    (he : g p.1 p.2 = g q.1 q.2) : p = q := by
  have hnd := hasAllDigits_nodup h
  rw [boxList] at hnd
  exact (List.nodup_map_iff_inj_on (boxCells_nodup br bc)).mp hnd p hp q hq he

theorem icav_distinct {g : Grid} (h : isCompleteAndValid g = true)
    (r c r' c' : Fin 9) (hu : SameUnit r c r' c') (hne : ¬(r' = r ∧ c' = c)) :
    g r' c' ≠ g r c := by
  obtain ⟨hrow, hcol, hbox⟩ := icav_iff.mp h
  intro heq
  rcases hu with hr | hc | ⟨h1, h2⟩
  · subst hr
    have := row_inj (hrow r) heq
    exact hne ⟨rfl, this⟩
  · subst hc
    have := col_inj (hcol c) heq
    exact hne ⟨this, rfl⟩
  · have hbr : r.val / 3 < 3 := by have := r.isLt; omega
    have hbc : c.val / 3 < 3 := by have := c.isLt; omega
    have hp : (r, c) ∈ boxCells ⟨r.val / 3, hbr⟩ ⟨c.val / 3, hbc⟩ :=
      boxCells_mem (r, c) _ _ rfl rfl
    have hq : (r', c') ∈ boxCells ⟨r.val / 3, hbr⟩ ⟨c.val / 3, hbc⟩ :=
      boxCells_mem (r', c') _ _ (by simpa using h1.symm) (by simpa using h2.symm)
    have := box_inj (hbox _ _) hq hp heq
    rw [Prod.mk.injEq] at this
    exact hne ⟨this.1, this.2⟩

theorem icav_rowPerm {g : Grid} (h : isCompleteAndValid g = true) (r : Fin 9) :
    RowPerm g r := by
  intro n hn1 hn9
  have hrow := (icav_iff.mp h).1 r
  obtain ⟨_, _, hmem⟩ := hasAllDigits_iff.mp hrow
  have := hmem n hn1 hn9
  rw [rowList] at this
  obtain ⟨c, _, hc⟩ := List.mem_map.mp this
  refine ⟨c, hc, fun c' hc' => ?_⟩
  exact row_inj hrow (hc'.trans hc.symm)

theorem icav_colPerm {g : Grid} (h : isCompleteAndValid g = true) (c : Fin 9) :
    ColPerm g c := by
  intro n hn1 hn9
  have hcol := (icav_iff.mp h).2.1 c
  obtain ⟨_, _, hmem⟩ := hasAllDigits_iff.mp hcol
  have := hmem n hn1 hn9
  rw [colList] at this
  obtain ⟨r, _, hr⟩ := List.mem_map.mp this
  refine ⟨r, hr, fun r' hr' => ?_⟩
  exact col_inj hcol (hr'.trans hr.symm)

theorem boxCells_char : ∀ (br bc : Fin 3) (p : Fin 9 × Fin 9),
    p ∈ boxCells br bc → p.1.val / 3 = br.val ∧ p.2.val / 3 = bc.val := by
  decide

theorem icav_boxPerm {g : Grid} (h : isCompleteAndValid g = true) (br bc : Fin 3) :
    BoxPerm g br bc := by
  intro n hn1 hn9
  have hbox := (icav_iff.mp h).2.2 br bc
  obtain ⟨_, _, hmem⟩ := hasAllDigits_iff.mp hbox
  have := hmem n hn1 hn9
  rw [boxList] at this
  obtain ⟨p, hpmem, hp⟩ := List.mem_map.mp this
  refine ⟨p, ⟨boxCells_char br bc p hpmem, hp⟩, fun q hq => ?_⟩
  have hqmem : q ∈ boxCells br bc :=
    boxCells_mem q br bc hq.1.1 hq.1.2
  exact box_inj hbox hqmem hpmem (hq.2.trans hp.symm)

/-! ### Search completions versus valid completions -/

theorem vc_to_sc {p g' : Grid} (h : ValidCompletion p g') : SearchCompletion p g' := by
  obtain ⟨hext, hbounds, hdist⟩ := h
  refine ⟨hext, fun r c => by have := hbounds r c; omega, fun r c _ => ?_⟩
  exact ⟨(hbounds r c).1, (hbounds r c).2, fun r' c' hu hne => hdist r c r' c' hu hne⟩

theorem sc_to_vc {p g' : Grid} (hngc : NoGivenConflict p)
    (h : SearchCompletion p g') : ValidCompletion p g' := by
  obtain ⟨hext, hfull, hrest⟩ := h
  obtain ⟨hgb, hgd⟩ := hngc
  have hbounds : ∀ r c : Fin 9, 1 ≤ g' r c ∧ g' r c ≤ 9 := by
    intro r c
    by_cases hz : p r c = 0
    · exact ⟨(hrest r c hz).1, (hrest r c hz).2.1⟩
    · rw [hext r c hz]
      exact hgb r c hz
  refine ⟨hext, hbounds, fun r c r' c' hu hne => ?_⟩
  by_cases hz : p r c = 0
  · exact (hrest r c hz).2.2 r' c' hu hne
  · by_cases hz' : p r' c' = 0
    · intro heq
      have hne' : ¬(r = r' ∧ c = c') := by
        rintro ⟨rfl, rfl⟩
        exact hne ⟨rfl, rfl⟩
      exact (hrest r' c' hz').2.2 r c (sameUnit_symm hu) hne' heq.symm
    · rw [hext r c hz, hext r' c' hz']
      exact hgd r c r' c' hz hz' hu hne

theorem ngc_of_extends_icav {p q : Grid} (hext : Extends p q)
    (hcv : isCompleteAndValid q = true) : NoGivenConflict p := by
  constructor
  · intro r c hz
    rw [← hext r c hz]
    exact icav_bounds hcv r c
  · intro r c r' c' hz hz' hu hne
    rw [← hext r c hz, ← hext r' c' hz']
    exact icav_distinct hcv r c r' c' hu hne

/-! ### Characterizing `validatePuzzle` and the attempt loop -/

theorem boardsEqual_iff {a b : Grid} : boardsEqual a b = true ↔ a = b := by
  rw [boardsEqual, decide_eq_true_eq]
  constructor
  · intro h
    funext r c
    exact h r c
  · intro h r c
    rw [h]

theorem validatePuzzle_some {puzzle expected s : Grid}
    (h : validatePuzzle puzzle expected = some s) :
    (solveBoardDet puzzle).1 = true ∧
      isCompleteAndValid (solveBoardDet puzzle).2.1 = true ∧
      countSolutions puzzle = 1 ∧ s = (solveBoardDet puzzle).2.1 := by
  simp only [validatePuzzle] at h
  split at h
  · exact absurd h (by simp)
  · split at h
    · exact absurd h (by simp)
    · split at h
      · exact absurd h (by simp)
      · rename_i h1 h2 h3
        rw [Bool.not_eq_true', Bool.not_eq_false] at h1 h2
        have h3' : countSolutions puzzle = 1 := by omega
        refine ⟨h1, h2, h3', ?_⟩
        rw [Option.some_inj] at h
        by_cases h4 : boardsEqual (solveBoardDet puzzle).2.1 expected = true
        · rw [if_pos h4] at h
          rw [← h, boardsEqual_iff.mp h4]
        · rw [if_neg h4] at h
          exact h.symm

theorem attemptResult_some {difficulty : String} {rand : Nat → AttemptRand}
    {i : Nat} {x : Grid × Grid} (h : attemptResult difficulty rand i = some x) :
    ∃ solved, generateSolvedBoard (rand i).reorder = some solved ∧
      x.1 = carvePuzzle solved difficulty (rand i).positions ∧
      validatePuzzle x.1 solved = some x.2 := by
  rw [attemptResult] at h
  cases hg : generateSolvedBoard (rand i).reorder with
  | none => rw [hg] at h; exact absurd h (by simp)
  | some solved =>
    rw [hg] at h
    have h' : (match validatePuzzle (carvePuzzle solved difficulty (rand i).positions)
        solved with
      | some sol => some (carvePuzzle solved difficulty (rand i).positions, sol)
      | none => (none : Option (Grid × Grid))) = some x := h
    cases hv : validatePuzzle (carvePuzzle solved difficulty (rand i).positions) solved with
    | none => rw [hv] at h'; exact absurd h' (by simp)
    | some sol =>
      rw [hv] at h'
      rw [Option.some_inj] at h'
      refine ⟨solved, rfl, ?_, ?_⟩
      · rw [← h']
      · rw [← h']
        exact hv

theorem generateGo_some {difficulty : String} {rand : Nat → AttemptRand} :
    ∀ (remaining i : Nat) (x : Grid × Grid),
      generateGo difficulty rand remaining i = some x →
      ∃ j, i ≤ j ∧ j < i + remaining ∧ attemptResult difficulty rand j = some x := by
  intro remaining
  induction remaining with
  | zero => intro i x h; rw [generateGo] at h; exact absurd h (by simp)
  | succ remaining ih =>
    intro i x h
    rw [generateGo] at h
    cases ha : attemptResult difficulty rand i with
    | some y =>
      rw [ha] at h
      rw [Option.some_inj] at h
      exact ⟨i, le_refl i, by omega, by rw [ha, h]⟩
    | none =>
      rw [ha] at h
      obtain ⟨j, hj1, hj2, hj3⟩ := ih (i + 1) x h
      exact ⟨j, by omega, by omega, hj3⟩

theorem generateGo_none {difficulty : String} {rand : Nat → AttemptRand} :
    ∀ (remaining i : Nat),
      (∀ j, i ≤ j → j < i + remaining → attemptResult difficulty rand j = none) →
      generateGo difficulty rand remaining i = none := by
  intro remaining
  induction remaining with
  | zero => intro i _; rw [generateGo]
  | succ remaining ih =>
    intro i hall
    rw [generateGo]
    rw [hall i (le_refl i) (by omega)]
    exact ih (i + 1) fun j hj1 hj2 => hall j (by omega) (by omega)

/-- Everything `validatePuzzle` success guarantees about the pair. -/
theorem validate_chain {p expected s : Grid}
    (h : validatePuzzle p expected = some s) :
    (solveBoardDet p).1 = true ∧ (solveBoardDet p).2.1 = s ∧
      isCompleteAndValid s = true ∧ SearchCompletions p = {s} ∧
      NoGivenConflict p := by
  obtain ⟨h1, h2, h3, h4⟩ := validatePuzzle_some h
  have hmem : SearchCompletion p (solveBoardDet p).2.1 :=
    solveAux_true_mem idReorder idReorder_range 81 p 0 h1
  have hngc : NoGivenConflict p := ngc_of_extends_icav hmem.1 h2
  have hcount := countSolutions_eq p
  rw [h3] at hcount
  have hcard : (SearchCompletions p).ncard = 1 := by omega
  obtain ⟨a, ha⟩ := Set.ncard_eq_one.mp hcard
  have hq : (solveBoardDet p).2.1 ∈ SearchCompletions p := hmem
  rw [ha, Set.mem_singleton_iff] at hq
  refine ⟨h1, h4.symm, by rw [h4]; exact h2, ?_, hngc⟩
  rw [ha, ← hq, ← h4]

/-- C1: a generated puzzle re-solves deterministically to the returned
solution, that solution is the unique valid completion of the puzzle, and
every row, column and box of it is a permutation of 1–9. -/
theorem generatePuzzle_unique_solution (difficulty : String)
    (rand : Nat → AttemptRand) (puzzle sol : Grid)
    (h : generatePuzzle difficulty rand = some (puzzle, sol)) :
    (solveBoardDet puzzle).1 = true ∧ (solveBoardDet puzzle).2.1 = sol ∧
      (∀ g' : Grid, ValidCompletion puzzle g' ↔ g' = sol) ∧
      (∀ r : Fin 9, RowPerm sol r) ∧ (∀ c : Fin 9, ColPerm sol c) ∧
      ∀ br bc : Fin 3, BoxPerm sol br bc := by
  rw [generatePuzzle] at h
  obtain ⟨j, _, _, hj⟩ := generateGo_some MAX_GENERATION_ATTEMPTS 0 (puzzle, sol) h
  obtain ⟨solved, _, _, hval⟩ := attemptResult_some hj
  obtain ⟨h1, h2, hcv, hsc, hngc⟩ := validate_chain hval
  have hscmem : SearchCompletion puzzle sol := by
    have : sol ∈ SearchCompletions puzzle := by rw [hsc]; rfl
    exact this
  refine ⟨h1, h2, fun g' => ⟨fun hvc => ?_, fun hg' => ?_⟩, ?_, ?_, ?_⟩
  · have : g' ∈ SearchCompletions puzzle := vc_to_sc hvc
    rw [hsc, Set.mem_singleton_iff] at this
    exact this
  · subst hg'
    exact sc_to_vc hngc hscmem
  · exact fun r => icav_rowPerm hcv r
  · exact fun c => icav_colPerm hcv c
  · exact fun br bc => icav_boxPerm hcv br bc

/-- C2: every given of a generated puzzle is preserved exactly in the
returned solution. -/
theorem generatePuzzle_givens_preserved (difficulty : String)
    (rand : Nat → AttemptRand) (puzzle sol : Grid)
    (h : generatePuzzle difficulty rand = some (puzzle, sol)) :
    ∀ r c : Fin 9, puzzle r c ≠ 0 → sol r c = puzzle r c := by
  rw [generatePuzzle] at h
  obtain ⟨j, _, _, hj⟩ := generateGo_some MAX_GENERATION_ATTEMPTS 0 (puzzle, sol) h
  obtain ⟨solved, _, _, hval⟩ := attemptResult_some hj
  obtain ⟨_, _, _, hsc, _⟩ := validate_chain hval
  have hscmem : SearchCompletion puzzle sol := by
    have : sol ∈ SearchCompletions puzzle := by rw [hsc]; rfl
    exact this
  exact hscmem.1

/-- C6: the generator makes at most `MAX_GENERATION_ATTEMPTS = 8` attempts:
if all 8 attempts fail it signals failure (`none`, the JS `throw`), and a
returned pair always comes from an attempt below the bound whose carved
puzzle passed `validatePuzzle`. -/
theorem generatePuzzle_bounded_attempts (difficulty : String)
    (rand : Nat → AttemptRand) :
    MAX_GENERATION_ATTEMPTS = 8 ∧
      ((∀ i, i < MAX_GENERATION_ATTEMPTS → attemptResult difficulty rand i = none) →
        generatePuzzle difficulty rand = none) ∧
      ∀ puzzle sol : Grid, generatePuzzle difficulty rand = some (puzzle, sol) →
        ∃ i, i < MAX_GENERATION_ATTEMPTS ∧
          ∃ solved, generateSolvedBoard (rand i).reorder = some solved ∧
            puzzle = carvePuzzle solved difficulty (rand i).positions ∧
            validatePuzzle puzzle solved = some sol := by
  refine ⟨rfl, fun hall => ?_, fun puzzle sol h => ?_⟩
  · rw [generatePuzzle]
    exact generateGo_none MAX_GENERATION_ATTEMPTS 0 fun j _ hj2 =>
      hall j (by omega)
  · rw [generatePuzzle] at h
    obtain ⟨j, _, hj2, hj⟩ := generateGo_some MAX_GENERATION_ATTEMPTS 0 (puzzle, sol) h
    obtain ⟨solved, hg, hps, hval⟩ := attemptResult_some hj
    exact ⟨j, by omega, solved, hg, hps, hval⟩

/-! ### Claim C3: failure restores the board; claim C10: success fills it -/

/-- C3: whenever `solveBoard(grid, randomize, null)` returns false, the board
it leaves behind is the board it was given — every touched cell was reset. -/
theorem solveBoard_false_restores (g : Grid) (reorder : Reorder)
    (h : (solveBoard g reorder).1 = false) : (solveBoard g reorder).2.1 = g :=
  solveAux_false_grid reorder none 81 g 0 h

/-- C10: whenever `solveBoard(grid, randomize, null)` returns true, the board
is fully filled, the originally set cells are untouched, and no two distinct
cells of a unit with at least one solver-filled member hold the same value. -/
theorem solveBoard_true_valid_fill (g : Grid) (reorder : Reorder)
    (h : (solveBoard g reorder).1 = true) :
    FullGrid (solveBoard g reorder).2.1 ∧
      (∀ r c : Fin 9, g r c ≠ 0 → (solveBoard g reorder).2.1 r c = g r c) ∧
      ∀ r c r' c' : Fin 9, SameUnit r c r' c' → ¬(r' = r ∧ c' = c) →
        (g r c = 0 ∨ g r' c' = 0) →
        (solveBoard g reorder).2.1 r' c' ≠ (solveBoard g reorder).2.1 r c := by
  obtain ⟨hext, hfull, hok⟩ := solveAux_true_good reorder 81 g 0 h
  refine ⟨hfull, hext, fun r c r' c' hu hne hz => ?_⟩
  rcases hz with hz | hz
  · exact hok r c hz r' c' hu hne
  · intro heq
    have hne' : ¬(r = r' ∧ c = c') := by
      rintro ⟨rfl, rfl⟩
      exact hne ⟨rfl, rfl⟩
    exact hok r' c' hz r c (sameUnit_symm hu) hne' heq.symm

/-! ### Concrete grids for witnesses and counterexamples -/

/-- Read a grid from a list of rows (missing entries read 0). -/
def gridOfList (l : List (List Nat)) : Grid :=
  fun r c => ((l.getD r.val []).getD c.val 0)

/-- The canonical solved grid from the specification's concrete scenario. -/
def canonGrid : Grid := gridOfList
  [[5,3,4,6,7,8,9,1,2],[6,7,2,1,9,5,3,4,8],[1,9,8,3,4,2,5,6,7],
   [8,5,9,7,6,1,4,2,3],[4,2,6,8,5,3,7,9,1],[7,1,3,9,2,4,8,5,6],
   [9,6,1,5,3,7,2,8,4],[2,8,7,4,1,9,6,3,5],[3,4,5,2,8,6,1,7,9]]

/-- An unsatisfiable grid: cell (0,0) is empty and its row holds 1–8 while
its column holds 9, so no digit fits the first empty cell. -/
def stuckGrid : Grid := gridOfList [[0,1,2,3,4,5,6,7,8],[9]]

theorem solveBoard_false_restores_witness :
    (solveBoard stuckGrid idReorder).1 = false ∧
      (solveBoard stuckGrid idReorder).2.1 = stuckGrid :=
  ⟨by decide, solveBoard_false_restores stuckGrid idReorder (by decide)⟩

theorem solveBoard_true_valid_fill_witness :
    (solveBoard canonGrid idReorder).2.1 0 0 ≠ 0 :=
  (solveBoard_true_valid_fill canonGrid idReorder (by decide)).1 0 0

/-! ### Claim C5: exactness of `countSolutions` -/

/-- All valid completions of `g` as a set. -/
def ValidCompletions (g : Grid) : Set Grid := {g' | ValidCompletion g g'}

/-- The all-ones grid: full, but far from a valid Sudoku. -/
def allOnesGrid : Grid := fun _ _ => 1

theorem allOnes_no_completion : ∀ g' : Grid, ¬ ValidCompletion allOnesGrid g' := by
  intro g' hvc
  obtain ⟨hext, _, hdist⟩ := hvc
  have h1 : g' 0 1 = 1 := hext 0 1 (by rw [allOnesGrid]; omega)
  have h0 : g' 0 0 = 1 := hext 0 0 (by rw [allOnesGrid]; omega)
  have := hdist 0 0 0 1 (Or.inl rfl) (by decide)
  rw [h1, h0] at this
  exact this rfl

/-- Counterexample to C5 as stated: on the all-ones grid — full and invalid —
`countSolutions` returns 1 although the grid has no valid completion at all
(`findEmpty` finds no empty cell, so the counting callback fires on the
unchecked input grid itself), so the returned count differs from the capped
number of completions. -/
theorem countSolutions_counts_invalid_full_grid :
    countSolutions allOnesGrid ≠ min 2 (ValidCompletions allOnesGrid).ncard := by
  have h1 : countSolutions allOnesGrid = 1 := by decide
  have h2 : ValidCompletions allOnesGrid = ∅ := by
    ext g'
    simp only [ValidCompletions, Set.mem_setOf_eq, Set.mem_empty_iff_false, iff_false]
    exact allOnes_no_completion g'
  rw [h1, h2, Set.ncard_empty]
  omega

/-- C5 amended: for a grid whose set cells are digits 1–9 with no conflict
among them (every grid `countSolutions` actually receives in this program),
`countSolutions` returns the number of valid completions capped at 2; the
callback's `true` return (count ≥ 2) halts the search at the cap. -/
theorem countSolutions_min_completions (g : Grid) (hngc : NoGivenConflict g) :
    countSolutions g = min 2 (ValidCompletions g).ncard := by
  rw [countSolutions_eq]
  have : SearchCompletions g = ValidCompletions g := by
    ext g'
    exact ⟨fun h => sc_to_vc hngc h, fun h => vc_to_sc h⟩
  rw [this]

theorem countSolutions_min_completions_witness :
    countSolutions emptyGrid = min 2 (ValidCompletions emptyGrid).ncard :=
  countSolutions_min_completions emptyGrid (by decide)

/-! ### Claim C7: the removal target -/

theorem setCell_restore (g : Grid) (r c : Fin 9) :
    setCell (setCell g r c 0) r c (g r c) = g := by
  funext r' c'
  by_cases hrc : r' = r ∧ c' = c
  · obtain ⟨h1, h2⟩ := hrc
    subst h1; subst h2
    simp [setCell]
  · simp [setCell, hrc]

theorem emptyCount_unset_le (g : Grid) (r c : Fin 9) :
    emptyCount (setCell g r c 0) ≤ emptyCount g + 1 := by
  by_cases h : g r c = 0
  · rw [setCell_self_zero g r c h]
    omega
  · have h0 : setCell g r c 0 r c = 0 := setCell_same g r c 0
    have hc := emptyCount_setCell h0 h
    rw [setCell_restore] at hc
    omega

theorem removedGE_some {removed t : Nat} :
    removedGE removed (some t) = true ↔ t ≤ removed := by
  simp [removedGE]

/-- With a numeric removal target the carve loop empties at most
`toRemove - removed` further cells. -/
theorem carveGo_emptyCount (t : Nat) :
    ∀ (positions : List (Fin 81)) (removed : Nat) (puzzle : Grid),
      removed ≤ t →
      emptyCount (carveGo (some t) positions removed puzzle)
        ≤ emptyCount puzzle + (t - removed) := by
  intro positions
  induction positions with
  | nil =>
    intro removed puzzle _
    rw [carveGo]
    omega
  | cons pos rest ih =>
    intro removed puzzle h
    rw [carveGo]
    by_cases hstop : t ≤ removed
    · rw [if_pos (removedGE_some.mpr hstop)]
      omega
    · rw [if_neg (fun hc => hstop (removedGE_some.mp hc))]
      by_cases hcnt : countSolutions (setCell puzzle (posRow pos) (posCol pos) 0) ≠ 1
      · rw [if_pos hcnt, setCell_restore]
        exact ih removed puzzle h
      · rw [if_neg hcnt]
        have h1 := ih (removed + 1) (setCell puzzle (posRow pos) (posCol pos) 0) (by omega)
        have h2 := emptyCount_unset_le puzzle (posRow pos) (posCol pos)
        omega

/-- Counterexample to C7 as stated: for `difficulty = "constructor"` the JS
lookup finds the inherited `Object.prototype.constructor`, a non-nullish
value, so `?? removalMap.medium` never falls back — the target is not the
medium 55 — and the carve loop's stop test `removed >= toRemove` stays false
even once 55 cells have been removed, so the claimed cap does not bind. -/
theorem removalCount_proto_no_fallback :
    removalCount "constructor" = none ∧
      removalCount "constructor" ≠ removalCount "medium" ∧
      removedGE 55 (removalCount "constructor") = false := by
  decide

/-- C7 amended: the removal target is a pure function of the difficulty
string — easy 45, medium 55, hard 62, expert 70, and any other string that
is not the name of an inherited `Object.prototype` member falls back to the
medium 55; for those it exists, carving never empties more cells than the
numeric target allows.  A difficulty naming an `Object.prototype` member
yields no numeric target at all (the cap is disabled). -/
theorem carvePuzzle_removal_target :
    (removalCount "easy" = some 45 ∧ removalCount "medium" = some 55 ∧
      removalCount "hard" = some 62 ∧ removalCount "expert" = some 70) ∧
      (∀ d : String, d ≠ "easy" → d ≠ "medium" → d ≠ "hard" → d ≠ "expert" →
        d ∉ protoKeys → removalCount d = some 55) ∧
      (∀ d : String, d ∈ protoKeys → removalCount d = none) ∧
      ∀ (solved : Grid) (d : String) (positions : List (Fin 81)) (t : Nat),
        removalCount d = some t →
        emptyCount (carvePuzzle solved d positions) ≤ emptyCount solved + t := by
  refine ⟨⟨rfl, rfl, rfl, rfl⟩, fun d h1 h2 h3 h4 h5 => ?_, fun d hd => ?_,
    fun solved d positions t ht => ?_⟩
  · rw [removalCount, if_neg h1, if_neg h2, if_neg h3, if_neg h4, if_neg h5]
  · have h1 : d ≠ "easy" := fun h => by subst h; revert hd; decide
    have h2 : d ≠ "medium" := fun h => by subst h; revert hd; decide
    have h3 : d ≠ "hard" := fun h => by subst h; revert hd; decide
    have h4 : d ≠ "expert" := fun h => by subst h; revert hd; decide
    rw [removalCount, if_neg h1, if_neg h2, if_neg h3, if_neg h4, if_pos hd]
  · have := carveGo_emptyCount t positions 0 solved (by omega)
    rw [carvePuzzle, ht]
    omega

theorem carvePuzzle_removal_target_witness : removalCount "banana" = some 55 :=
  carvePuzzle_removal_target.2.1 "banana" (by decide) (by decide) (by decide)
    (by decide) (by decide)

/-! ### A concrete successful generation and a concrete exhausted one -/

theorem canonGrid_sc : SearchCompletion emptyGrid canonGrid := by decide

/-- Attempt randomness that makes the randomized solve reproduce `canonGrid`
and the carve loop remove nothing. -/
def canonRand : Nat → AttemptRand := fun _ => ⟨guidedBy canonGrid, []⟩

theorem generateSolvedBoard_canon :
    generateSolvedBoard (guidedBy canonGrid) = some canonGrid := by
  have h := solveAux_guided 81 emptyGrid 0 canonGrid_sc (emptyCount_le emptyGrid)
  simp only [generateSolvedBoard]
  rw [h]
  rfl

theorem validatePuzzle_canon :
    validatePuzzle canonGrid canonGrid = some canonGrid := by decide

theorem generatePuzzle_canon :
    generatePuzzle "medium" canonRand = some (canonGrid, canonGrid) := by
  rw [generatePuzzle]
  show generateGo "medium" canonRand (7 + 1) 0 = some (canonGrid, canonGrid)
  rw [generateGo]
  have ha : attemptResult "medium" canonRand 0 = some (canonGrid, canonGrid) := by
    rw [attemptResult]
    rw [show (canonRand 0).reorder = guidedBy canonGrid from rfl]
    rw [generateSolvedBoard_canon]
    show (match validatePuzzle (carvePuzzle canonGrid "medium" (canonRand 0).positions)
        canonGrid with
      | some sol => some (carvePuzzle canonGrid "medium" (canonRand 0).positions, sol)
      | none => (none : Option (Grid × Grid))) = some (canonGrid, canonGrid)
    rw [show carvePuzzle canonGrid "medium" (canonRand 0).positions = canonGrid from rfl]
    rw [validatePuzzle_canon]
  rw [ha]

/-- Attempt randomness under which the randomized solve always fails (the
shuffle oracle yields no candidates), exhausting all 8 attempts. -/
def failRand : Nat → AttemptRand := fun _ => ⟨fun _ _ => [], []⟩

theorem attemptResult_fail (i : Nat) : attemptResult "medium" failRand i = none := by
  rw [attemptResult]
  rw [show (failRand i).reorder = (fun _ _ => ([] : List Nat)) from rfl]
  rw [show generateSolvedBoard (fun _ _ => ([] : List Nat)) = none from by decide]

theorem generatePuzzle_unique_solution_witness :
    (solveBoardDet canonGrid).2.1 = canonGrid :=
  (generatePuzzle_unique_solution "medium" canonRand canonGrid canonGrid
    generatePuzzle_canon).2.1

theorem generatePuzzle_givens_preserved_witness : canonGrid 0 0 = canonGrid 0 0 :=
  generatePuzzle_givens_preserved "medium" canonRand canonGrid canonGrid
    generatePuzzle_canon 0 0 (by decide)

theorem generatePuzzle_bounded_attempts_witness :
    generatePuzzle "medium" failRand = none :=
  (generatePuzzle_bounded_attempts "medium" failRand).2.1
    (fun i _ => attemptResult_fail i)

/-! ### Board State Model (board.js) -/

/-- `SudokuBoard` state: the original puzzle, the live grid, the solution,
the givens mask, and a per-cell note set. -/
structure SudokuBoard where
  puzzle : Grid
  grid : Grid
  solution : Grid
  givens : Fin 9 → Fin 9 → Bool
  notes : Fin 9 → Fin 9 → Finset Nat

/-- The constructor: live grid starts as the puzzle, givens mask marks the
non-zero puzzle cells, every note set starts empty. -/
def mkBoard (puzzle solution : Grid) : SudokuBoard :=
  ⟨puzzle, puzzle, solution, fun r c => decide (puzzle r c ≠ 0), fun _ _ => ∅⟩

/-- `isGiven(row, col)`. -/
def SudokuBoard.isGiven (b : SudokuBoard) (row col : Fin 9) : Bool :=
  b.givens row col

/-- `getValue(row, col)`. -/
def SudokuBoard.getValue (b : SudokuBoard) (row col : Fin 9) : Nat :=
  b.grid row col

/-- `setValue(row, col, value)`: write the value and clear the cell's
notes — no `isGiven` check. -/
def SudokuBoard.setValue (b : SudokuBoard) (row col : Fin 9) (value : Nat) :
    SudokuBoard :=
  { b with grid := setCell b.grid row col value,
           notes := fun r c => if r = row ∧ c = col then ∅ else b.notes r c }

/-- `clearValue(row, col)`. -/
def SudokuBoard.clearValue (b : SudokuBoard) (row col : Fin 9) : SudokuBoard :=
  { b with grid := setCell b.grid row col 0,
           notes := fun r c => if r = row ∧ c = col then ∅ else b.notes r c }

/-- `toggleNote(row, col, value)`: a no-op on a filled cell, otherwise flip
membership of `value` in the cell's note set. -/
def SudokuBoard.toggleNote (b : SudokuBoard) (row col : Fin 9) (value : Nat) :
    SudokuBoard :=
  if b.grid row col ≠ 0 then b
  else { b with notes := fun r c =>
    if r = row ∧ c = col then
      (if value ∈ b.notes row col then (b.notes row col).erase value
       else insert value (b.notes row col))
    else b.notes r c }

/-- `clearNotes(row, col)`. -/
def SudokuBoard.clearNotes (b : SudokuBoard) (row col : Fin 9) : SudokuBoard :=
  { b with notes := fun r c => if r = row ∧ c = col then ∅ else b.notes r c }

/-- `clearNotesInPeers(row, col, value)`: a no-op for falsy `value` (0);
otherwise delete `value` from the notes of every *empty* cell sharing the
row, the column or the box, the cell itself excepted (the JS three loops,
folded into one functional update — deleting twice equals deleting once). -/
def SudokuBoard.clearNotesInPeers (b : SudokuBoard) (row col : Fin 9)
    (value : Nat) : SudokuBoard :=
  if value = 0 then b
  else { b with notes := fun r c =>
    if ((r = row ∧ c ≠ col) ∨ (c = col ∧ r ≠ row) ∨
        (r.val / 3 = row.val / 3 ∧ c.val / 3 = col.val / 3 ∧ ¬(r = row ∧ c = col)))
        ∧ b.grid r c = 0 then
      (b.notes r c).erase value
    else b.notes r c }

/-- `resetToPuzzle()`: restore the live grid to the puzzle, clear all notes. -/
def SudokuBoard.resetToPuzzle (b : SudokuBoard) : SudokuBoard :=
  { b with grid := b.puzzle, notes := fun _ _ => ∅ }

/-- `availableCandidates(row, col)`: for an empty cell, the digits 1–9 absent
from its row, column and box of the live grid.  (The JS `used` set filters
out zeros, which cannot matter for digits 1–9.) -/
def SudokuBoard.availableCandidates (b : SudokuBoard) (row col : Fin 9) :
    List Nat :=
  if b.grid row col ≠ 0 then []
  else (List.range' 1 9).filter fun v =>
    !((rowList b.grid row).contains v) && !((colList b.grid col).contains v) &&
      !((boxList b.grid ⟨row.val / 3, by have := row.isLt; omega⟩
          ⟨col.val / 3, by have := col.isLt; omega⟩).contains v)

/-- The body of the `findHint` scan at one cell: skip filled cells, answer
the cell and its single candidate when `availableCandidates` has exactly one
member. -/
def hintAt (b : SudokuBoard) (r c : Fin 9) : Option (Fin 9 × Fin 9 × Nat) :=
  if b.grid r c ≠ 0 then none
  else match b.availableCandidates r c with
    | [v] => some (r, c, v)
    | _ => none

/-- `findHint()`: row-major scan for the first naked single. -/
def SudokuBoard.findHint (b : SudokuBoard) : Option (Fin 9 × Fin 9 × Nat) :=
  allCells.findSome? fun p => hintAt b p.1 p.2

/-! ### Claim C4: illegal Board State mutations -/

/-- A board whose cell (0,0) is a given (value 5). -/
def givenBoard : SudokuBoard := mkBoard (gridOfList [[5]]) canonGrid

/-- Counterexample to C4 as stated: `setValue` has no `isGiven` guard, so
writing 7 to the given cell (0,0) does change the grid. -/
theorem setValue_overwrites_given :
    givenBoard.isGiven 0 0 = true ∧
      (givenBoard.setValue 0 0 7).grid 0 0 ≠ givenBoard.grid 0 0 := by
  decide

/-- C4 amended: `toggleNote` on a filled cell is a no-op (the whole board
state is unchanged), but `setValue` writes unconditionally — it overwrites
even a given cell (callers are expected to check `isGiven` themselves). -/
theorem boardState_illegal_mutation :
    (∀ (b : SudokuBoard) (row col : Fin 9) (v : Nat),
        b.grid row col ≠ 0 → b.toggleNote row col v = b) ∧
      ∀ (b : SudokuBoard) (row col : Fin 9) (v : Nat),
        (b.setValue row col v).grid row col = v := by
  constructor
  · intro b row col v h
    rw [SudokuBoard.toggleNote, if_pos h]
  · intro b row col v
    show setCell b.grid row col v row col = v
    exact setCell_same b.grid row col v

/-- A board with every cell filled. -/
def filledBoard : SudokuBoard := mkBoard canonGrid canonGrid

theorem boardState_illegal_mutation_witness :
    filledBoard.toggleNote 0 0 3 = filledBoard :=
  boardState_illegal_mutation.1 filledBoard 0 0 3 (by decide)

/-! ### Claim C9: values and notes are mutually exclusive -/

/-- The invariant: a filled cell has an empty note set. -/
abbrev NotesInv (b : SudokuBoard) : Prop :=
  ∀ r c : Fin 9, b.grid r c ≠ 0 → b.notes r c = ∅

/-- C9: construction establishes the values/notes exclusivity invariant and
every Board State operation preserves it. -/
theorem notes_values_exclusive :
    (∀ puzzle solution : Grid, NotesInv (mkBoard puzzle solution)) ∧
      (∀ (b : SudokuBoard) (row col : Fin 9) (v : Nat), NotesInv b →
        NotesInv (b.setValue row col v)) ∧
      (∀ (b : SudokuBoard) (row col : Fin 9), NotesInv b →
        NotesInv (b.clearValue row col)) ∧
      (∀ (b : SudokuBoard) (row col : Fin 9) (v : Nat), NotesInv b →
        NotesInv (b.toggleNote row col v)) ∧
      (∀ (b : SudokuBoard) (row col : Fin 9), NotesInv b →
        NotesInv (b.clearNotes row col)) ∧
      (∀ (b : SudokuBoard) (row col : Fin 9) (v : Nat), NotesInv b →
        NotesInv (b.clearNotesInPeers row col v)) ∧
      ∀ b : SudokuBoard, NotesInv b.resetToPuzzle := by
  refine ⟨fun puzzle solution r c _ => rfl, ?_, ?_, ?_, ?_, ?_, fun b r c _ => rfl⟩
  · intro b row col v hinv r c hval
    show (if r = row ∧ c = col then ∅ else b.notes r c) = ∅
    by_cases hrc : r = row ∧ c = col
    · rw [if_pos hrc]
    · rw [if_neg hrc]
      have : b.grid r c ≠ 0 := by
        have := setCell_other b.grid row col v r c hrc
        rw [show (b.setValue row col v).grid = setCell b.grid row col v from rfl]
          at hval
        rw [this] at hval
        exact hval
      exact hinv r c this
  · intro b row col hinv r c hval
    show (if r = row ∧ c = col then ∅ else b.notes r c) = ∅
    by_cases hrc : r = row ∧ c = col
    · rw [if_pos hrc]
    · rw [if_neg hrc]
      have : b.grid r c ≠ 0 := by
        have := setCell_other b.grid row col 0 r c hrc
        rw [show (b.clearValue row col).grid = setCell b.grid row col 0 from rfl]
          at hval
        rw [this] at hval
        exact hval
      exact hinv r c this
  · intro b row col v hinv r c hval
    rw [SudokuBoard.toggleNote] at hval ⊢
    by_cases hz : b.grid row col ≠ 0
    · rw [if_pos hz] at hval ⊢
      exact hinv r c hval
    · rw [if_neg hz] at hval ⊢
      show (if r = row ∧ c = col then _ else b.notes r c) = ∅
      have hval' : b.grid r c ≠ 0 := hval
      by_cases hrc : r = row ∧ c = col
      · obtain ⟨rfl, rfl⟩ := hrc
        exact absurd hval' hz
      · rw [if_neg hrc]
        exact hinv r c hval'
  · intro b row col hinv r c hval
    show (if r = row ∧ c = col then ∅ else b.notes r c) = ∅
    by_cases hrc : r = row ∧ c = col
    · rw [if_pos hrc]
    · rw [if_neg hrc]
      exact hinv r c hval
  · intro b row col v hinv r c hval
    rw [SudokuBoard.clearNotesInPeers] at hval ⊢
    by_cases hz : v = 0
    · rw [if_pos hz] at hval ⊢
      exact hinv r c hval
    · rw [if_neg hz] at hval ⊢
      have hval' : b.grid r c ≠ 0 := hval
      show (if _ ∧ b.grid r c = 0 then _ else b.notes r c) = ∅
      rw [if_neg (by intro hcontra; exact hval' hcontra.2)]
      exact hinv r c hval'

theorem notes_values_exclusive_witness :
    ((mkBoard canonGrid canonGrid).setValue 0 0 7).notes 1 1 = ∅ :=
  notes_values_exclusive.2.1 (mkBoard canonGrid canonGrid) 0 0 7 (by decide) 1 1
    (by decide)

/-! ### Claim C8: `findHint` returns the first naked single -/

theorem findSome?_split {α β : Type} (f : α → Option β) :
    ∀ (l : List α) (y : β), l.findSome? f = some y →
      ∃ (l1 : List α) (a : α) (l2 : List α),
        l = l1 ++ a :: l2 ∧ (∀ x ∈ l1, f x = none) ∧ f a = some y := by
  intro l
  induction l with
  | nil => intro y h; rw [List.findSome?_nil] at h; cases h
  | cons a l ih =>
    intro y h
    rw [List.findSome?_cons] at h
    cases hfa : f a with
    | some b =>
      rw [hfa] at h
      exact ⟨[], a, l, rfl, by simp, by rw [hfa]; exact h⟩
    | none =>
      rw [hfa] at h
      obtain ⟨l1, a', l2, hsplit, h1, h2⟩ := ih y h
      refine ⟨a :: l1, a', l2, by rw [hsplit]; rfl, ?_, h2⟩
      intro x hx
      rcases List.mem_cons.mp hx with rfl | hx'
      · exact hfa
      · exact h1 x hx'

theorem findSome?_first {α β : Type} (f : α → Option β) (l1 : List α) (a : α)
    (l2 : List α) (y : β) (h1 : ∀ x ∈ l1, f x = none) (h2 : f a = some y) :
    (l1 ++ a :: l2).findSome? f = some y := by
  rw [List.findSome?_append, List.findSome?_eq_none_iff.mpr h1, Option.none_or,
    List.findSome?_cons, h2]

/-- Row-major rank of a cell. -/
def cellIdx (p : Fin 9 × Fin 9) : Nat := p.1.val * 9 + p.2.val

theorem allCells_sorted : allCells.Pairwise fun p q => cellIdx p < cellIdx q := by
  decide

theorem mem_prefix_of_lt {l1 l2 : List (Fin 9 × Fin 9)} {a q : Fin 9 × Fin 9}
    (hsplit : allCells = l1 ++ a :: l2) (hlt : cellIdx q < cellIdx a) : q ∈ l1 := by
  have hq := mem_allCells q
  rw [hsplit] at hq
  rcases List.mem_append.mp hq with h | h
  · exact h
  · rcases List.mem_cons.mp h with rfl | h2
    · omega
    · have hs := allCells_sorted
      rw [hsplit] at hs
      have hpc := (List.pairwise_append.mp hs).2.1
      have := (List.pairwise_cons.mp hpc).1 q h2
      omega

theorem hintAt_some {b : SudokuBoard} {r c : Fin 9} {y : Fin 9 × Fin 9 × Nat}
    (h : hintAt b r c = some y) :
    b.grid r c = 0 ∧ b.availableCandidates r c = [y.2.2] ∧ y.1 = r ∧ y.2.1 = c := by
  rw [hintAt] at h
  by_cases hz : b.grid r c ≠ 0
  · rw [if_pos hz] at h; cases h
  · rw [if_neg hz] at h
    have hz' : b.grid r c = 0 := by omega
    cases hc : b.availableCandidates r c with
    | nil => rw [hc] at h; cases h
    | cons v rest =>
      cases rest with
      | nil =>
        rw [hc] at h
        rw [Option.some_inj] at h
        subst h
        exact ⟨hz', rfl, rfl, rfl⟩
      | cons w rest2 => rw [hc] at h; cases h

theorem hintAt_none {b : SudokuBoard} {r c : Fin 9} (h : hintAt b r c = none) :
    ¬(b.grid r c = 0 ∧ (b.availableCandidates r c).length = 1) := by
  rintro ⟨hz, hlen⟩
  obtain ⟨v, hv⟩ := List.length_eq_one.mp hlen
  rw [hintAt, if_neg (by rw [hz]; exact fun hcontra => hcontra rfl), hv] at h
  cases h

theorem hintAt_filled {b : SudokuBoard} {r c : Fin 9} (h : b.grid r c ≠ 0) :
    hintAt b r c = none := by
  rw [hintAt, if_pos h]

theorem hintAt_nosingle {b : SudokuBoard} {r c : Fin 9} (hz : b.grid r c = 0)
    (hlen : (b.availableCandidates r c).length ≠ 1) : hintAt b r c = none := by
  rw [hintAt, if_neg (by rw [hz]; exact fun hcontra => hcontra rfl)]
  cases hc : b.availableCandidates r c with
  | nil => rfl
  | cons v rest =>
    cases rest with
    | nil => rw [hc] at hlen; simp at hlen
    | cons w rest2 => rfl

theorem hintAt_single {b : SudokuBoard} {r c : Fin 9} {v : Nat}
    (hz : b.grid r c = 0) (hv : b.availableCandidates r c = [v]) :
    hintAt b r c = some (r, c, v) := by
  rw [hintAt, if_neg (by rw [hz]; exact fun hcontra => hcontra rfl), hv]

/-- C8: `findHint` answers the row-major-first empty cell with exactly one
available candidate together with that candidate, answers `none` exactly when
no empty cell has exactly one candidate, and in particular finds the one
empty cell of an otherwise filled board when a single digit remains for it. -/
theorem findHint_first_naked_single (b : SudokuBoard) :
    (∀ (r c : Fin 9) (v : Nat), b.findHint = some (r, c, v) →
        b.grid r c = 0 ∧ b.availableCandidates r c = [v] ∧
          ∀ r' c' : Fin 9, r'.val * 9 + c'.val < r.val * 9 + c.val →
            ¬(b.grid r' c' = 0 ∧ (b.availableCandidates r' c').length = 1)) ∧
      (b.findHint = none ↔
        ∀ r c : Fin 9, b.grid r c = 0 → (b.availableCandidates r c).length ≠ 1) ∧
      ∀ (r c : Fin 9) (v : Nat), b.grid r c = 0 →
        (∀ r' c' : Fin 9, ¬(r' = r ∧ c' = c) → b.grid r' c' ≠ 0) →
        b.availableCandidates r c = [v] → b.findHint = some (r, c, v) := by
  refine ⟨fun r c v h => ?_, ⟨fun h r c hz => ?_, fun hno => ?_⟩,
    fun r c v hz hothers hv => ?_⟩
  · rw [SudokuBoard.findHint] at h
    obtain ⟨l1, a, l2, hsplit, h1, h2⟩ :=
      findSome?_split (fun p => hintAt b p.1 p.2) allCells (r, c, v) h
    obtain ⟨haz, hac, ha1, ha2⟩ := hintAt_some h2
    have ha : a = (r, c) := by
      rw [Prod.ext_iff]
      exact ⟨ha1.symm, ha2.symm⟩
    subst ha
    refine ⟨haz, hac, fun r' c' hlt => ?_⟩
    have hmem : (r', c') ∈ l1 := mem_prefix_of_lt hsplit hlt
    exact hintAt_none (h1 (r', c') hmem)
  · intro hlen
    have := List.findSome?_eq_none_iff.mp h (r, c) (mem_allCells (r, c))
    exact hintAt_none this ⟨hz, hlen⟩
  · rw [SudokuBoard.findHint]
    apply List.findSome?_eq_none_iff.mpr
    intro p _
    by_cases hz : b.grid p.1 p.2 = 0
    · exact hintAt_nosingle hz (hno p.1 p.2 hz)
    · exact hintAt_filled hz
  · obtain ⟨l1, l2, hsplit⟩ := List.append_of_mem (mem_allCells (r, c))
    have hs := allCells_sorted
    rw [hsplit] at hs
    have hl1 : ∀ x ∈ l1, hintAt b x.1 x.2 = none := by
      intro x hx
      have hxlt : x.1.val * 9 + x.2.val < r.val * 9 + c.val :=
        (List.pairwise_append.mp hs).2.2 x hx (r, c) (List.mem_cons_self _ _)
      have hxne : ¬(x.1 = r ∧ x.2 = c) := by
        rintro ⟨h1, h2⟩
        rw [h1, h2] at hxlt
        omega
      exact hintAt_filled (hothers x.1 x.2 hxne)
    rw [SudokuBoard.findHint, hsplit]
    exact findSome?_first _ l1 (r, c) l2 (r, c, v) hl1 (hintAt_single hz hv)

/-- A board one digit away from the canonical solved grid: only cell (8,8)
is empty, and its peers leave only the digit 9. -/
def oneEmptyBoard : SudokuBoard :=
  mkBoard (gridOfList
    [[5,3,4,6,7,8,9,1,2],[6,7,2,1,9,5,3,4,8],[1,9,8,3,4,2,5,6,7],
     [8,5,9,7,6,1,4,2,3],[4,2,6,8,5,3,7,9,1],[7,1,3,9,2,4,8,5,6],
     [9,6,1,5,3,7,2,8,4],[2,8,7,4,1,9,6,3,5],[3,4,5,2,8,6,1,7,0]]) canonGrid

theorem findHint_first_naked_single_witness :
    oneEmptyBoard.findHint = some (8, 8, 9) :=
  (findHint_first_naked_single oneEmptyBoard).2.2 8 8 9 (by decide) (by decide)
    (by decide)
